import Mathlib

/-!
Verification of the Tetris core engine of this repository
(`games/tetris/pieces.js`, `games/tetris/board.js` (game.js bundle),
`games/tetris/game.js`, `bag.js`, `scoring.js`) against its specification.

The JavaScript sources are shallowly embedded: every mutable module becomes
a state structure with pure transition functions, machine numbers become
`Int`/`Nat`/`Rat`, and the `=== null` / `undefined` distinctions of the
dynamic language are modelled explicitly where they are observable.
-/

namespace Tetris

/-- The seven tetromino types (`PIECE_TYPES` in pieces.js). -/
inductive Tet where
  | I | O | T | S | Z | J | L
  deriving DecidableEq

/-- `PIECE_TYPES = ['I', 'O', 'T', 'S', 'Z', 'J', 'L']`. -/
def PIECE_TYPES : List Tet := [.I, .O, .T, .S, .Z, .J, .L]

/-- `COLORS` in pieces.js: hex color string for each piece type. -/
def COLORS : Tet → String
  | .I => "#00f0f0"
  | .O => "#f0f000"
  | .T => "#a000f0"
  | .S => "#00f000"
  | .Z => "#f00000"
  | .J => "#0000f0"
  | .L => "#f0a000"

/-- A board cell: `null` (empty) or an occupant color string. -/
abbrev Cell := Option String

/-- The board grid: a list of rows (index 0 = bottom), each a list of cells. -/
abbrev Grid := List (List Cell)

def BOARD_WIDTH : ℕ := 10

def BOARD_HEIGHT : ℕ := 22

/-- `SHAPES[type]` from pieces.js: the four rotation states, each a list of
four `[x, y]` block offsets. -/
def SHAPES (t : Tet) : List (List (ℤ × ℤ)) :=
  match t with
  | .I => [[(0, 1), (1, 1), (2, 1), (3, 1)],
           [(2, 0), (2, 1), (2, 2), (2, 3)],
           [(0, 2), (1, 2), (2, 2), (3, 2)],
           [(1, 0), (1, 1), (1, 2), (1, 3)]]
  | .O => [[(1, 0), (2, 0), (1, 1), (2, 1)],
           [(1, 0), (2, 0), (1, 1), (2, 1)],
           [(1, 0), (2, 0), (1, 1), (2, 1)],
           [(1, 0), (2, 0), (1, 1), (2, 1)]]
  | .T => [[(1, 0), (0, 1), (1, 1), (2, 1)],
           [(1, 0), (1, 1), (2, 1), (1, 2)],
           [(0, 1), (1, 1), (2, 1), (1, 2)],
           [(1, 0), (0, 1), (1, 1), (1, 2)]]
  | .S => [[(1, 0), (2, 0), (0, 1), (1, 1)],
           [(1, 0), (1, 1), (2, 1), (2, 2)],
           [(1, 1), (2, 1), (0, 2), (1, 2)],
           [(0, 0), (0, 1), (1, 1), (1, 2)]]
  | .Z => [[(0, 0), (1, 0), (1, 1), (2, 1)],
           [(2, 0), (1, 1), (2, 1), (1, 2)],
           [(0, 1), (1, 1), (1, 2), (2, 2)],
           [(1, 0), (0, 1), (1, 1), (0, 2)]]
  | .J => [[(0, 0), (0, 1), (1, 1), (2, 1)],
           [(1, 0), (2, 0), (1, 1), (1, 2)],
           [(0, 1), (1, 1), (2, 1), (2, 2)],
           [(1, 0), (1, 1), (0, 2), (1, 2)]]
  | .L => [[(2, 0), (0, 1), (1, 1), (2, 1)],
           [(1, 0), (1, 1), (1, 2), (2, 2)],
           [(0, 1), (1, 1), (2, 1), (0, 2)],
           [(0, 0), (1, 0), (1, 1), (1, 2)]]

/-- `SHAPES[type][rotation]`: JavaScript array indexing yields `undefined`
(modelled as `none`) for any index outside 0..3. -/
def SHAPESo (t : Tet) (rot : ℤ) : Option (List (ℤ × ℤ)) :=
  if 0 ≤ rot ∧ rot < 4 then some ((SHAPES t).getD rot.toNat []) else none

/-- `STANDARD_KICKS` in pieces.js, keyed by the (from, to) rotation pair
(the source uses the string key `from + '->' + to`). -/
def STANDARD_KICKS (fromR toR : ℤ) : Option (List (ℤ × ℤ)) :=
  if fromR = 0 ∧ toR = 1 then some [(0, 0), (-1, 0), (-1, 1), (0, -2), (-1, -2)]
  else if fromR = 1 ∧ toR = 0 then some [(0, 0), (1, 0), (1, -1), (0, 2), (1, 2)]
  else if fromR = 1 ∧ toR = 2 then some [(0, 0), (1, 0), (1, -1), (0, 2), (1, 2)]
  else if fromR = 2 ∧ toR = 1 then some [(0, 0), (-1, 0), (-1, 1), (0, -2), (-1, -2)]
  else if fromR = 2 ∧ toR = 3 then some [(0, 0), (1, 0), (1, 1), (0, -2), (1, -2)]
  else if fromR = 3 ∧ toR = 2 then some [(0, 0), (-1, 0), (-1, -1), (0, 2), (-1, 2)]
  else if fromR = 3 ∧ toR = 0 then some [(0, 0), (-1, 0), (-1, -1), (0, 2), (-1, 2)]
  else if fromR = 0 ∧ toR = 3 then some [(0, 0), (1, 0), (1, 1), (0, -2), (1, -2)]
  else none

/-- `I_KICKS` in pieces.js. -/
def I_KICKS (fromR toR : ℤ) : Option (List (ℤ × ℤ)) :=
  if fromR = 0 ∧ toR = 1 then some [(0, 0), (-2, 0), (1, 0), (-2, -1), (1, 2)]
  else if fromR = 1 ∧ toR = 0 then some [(0, 0), (2, 0), (-1, 0), (2, 1), (-1, -2)]
  else if fromR = 1 ∧ toR = 2 then some [(0, 0), (-1, 0), (2, 0), (-1, 2), (2, -1)]
  else if fromR = 2 ∧ toR = 1 then some [(0, 0), (1, 0), (-2, 0), (1, -2), (-2, 1)]
  else if fromR = 2 ∧ toR = 3 then some [(0, 0), (2, 0), (-1, 0), (2, 1), (-1, -2)]
  else if fromR = 3 ∧ toR = 2 then some [(0, 0), (-2, 0), (1, 0), (-2, -1), (1, 2)]
  else if fromR = 3 ∧ toR = 0 then some [(0, 0), (1, 0), (-2, 0), (1, -2), (-2, 1)]
  else if fromR = 0 ∧ toR = 3 then some [(0, 0), (-1, 0), (2, 0), (-1, 2), (2, -1)]
  else none

/-- `O_KICKS` in pieces.js: a single no-op offset per transition. -/
def O_KICKS (fromR toR : ℤ) : Option (List (ℤ × ℤ)) :=
  if (fromR = 0 ∧ toR = 1) ∨ (fromR = 1 ∧ toR = 0) ∨ (fromR = 1 ∧ toR = 2) ∨
     (fromR = 2 ∧ toR = 1) ∨ (fromR = 2 ∧ toR = 3) ∨ (fromR = 3 ∧ toR = 2) ∨
     (fromR = 3 ∧ toR = 0) ∨ (fromR = 0 ∧ toR = 3) then some [(0, 0)]
  else none

/-- `WALL_KICKS[type][key]` in pieces.js (a missing key is `undefined`). -/
def WALL_KICKSo (t : Tet) (fromR toR : ℤ) : Option (List (ℤ × ℤ)) :=
  match t with
  | .I => I_KICKS fromR toR
  | .O => O_KICKS fromR toR
  | .T => STANDARD_KICKS fromR toR
  | .S => STANDARD_KICKS fromR toR
  | .Z => STANDARD_KICKS fromR toR
  | .J => STANDARD_KICKS fromR toR
  | .L => STANDARD_KICKS fromR toR

/-! ## Board (board.js, bundled in game.js) -/

/-- The JavaScript test `grid[y][x] === null`: true iff both indices are in
range of the (possibly ragged) array and the stored cell is `null`.
Out-of-range access yields `undefined`, and `undefined === null` is false. -/
def cellIsNull (grid : Grid) (y x : ℤ) : Bool :=
  decide (0 ≤ y) && decide (y < (grid.length : ℤ)) &&
    (let row := grid.getD y.toNat []
     decide (0 ≤ x) && decide (x < (row.length : ℤ)) &&
       (row.getD x.toNat (some "undefined") == none))

/-- The cell actually stored at row `y`, column `x` (for in-range indices). -/
def cellAt (grid : Grid) (y x : ℤ) : Cell :=
  (grid.getD y.toNat []).getD x.toNat none

/-- `createBoard()`'s initial grid: `BOARD_HEIGHT` rows of `BOARD_WIDTH`
`null` cells. -/
def createBoardGrid : Grid :=
  List.replicate BOARD_HEIGHT (List.replicate BOARD_WIDTH (none : Cell))

/-- `isValid(piece, x, y, rotation)` from board.js.  A `null` piece or an
`undefined` shape (rotation outside 0..3) is invalid; otherwise every block
must be in bounds and over a `null` cell. -/
def isValid (grid : Grid) (piece : Option Tet) (x y rot : ℤ) : Bool :=
  match piece with
  | none => false
  | some t =>
    match SHAPESo t rot with
    | none => false
    | some shape =>
      shape.all fun b =>
        let blockX := x + b.1
        let blockY := y + b.2
        (decide (0 ≤ blockX) && decide (blockX < (BOARD_WIDTH : ℤ)) &&
         decide (0 ≤ blockY) && decide (blockY < (BOARD_HEIGHT : ℤ))) &&
        cellIsNull grid blockY blockX

/-- Write one cell of the grid (JavaScript `grid[y][x] = v` for in-range
indices). -/
def setCell (grid : Grid) (y x : ℕ) (v : Cell) : Grid :=
  grid.set y ((grid.getD y []).set x v)

/-- `lock(piece, x, y, rotation)` from board.js: write the piece color into
every block cell that lies inside the board; out-of-range blocks are
silently skipped. -/
def lock (grid : Grid) (t : Tet) (x y rot : ℤ) : Grid :=
  match SHAPESo t rot with
  | none => grid
  | some shape =>
    shape.foldl
      (fun g b =>
        let blockX := x + b.1
        let blockY := y + b.2
        if 0 ≤ blockX ∧ blockX < (BOARD_WIDTH : ℤ) ∧
           0 ≤ blockY ∧ blockY < (BOARD_HEIGHT : ℤ) then
          setCell g blockY.toNat blockX.toNat (some (COLORS t))
        else g)
      grid

/-- The complete-row scan of `clearLines` for one row: every column
`x < BOARD_WIDTH` fails the `grid[y][x] === null` test. -/
def isCompleteRow (row : List Cell) : Bool :=
  (List.range BOARD_WIDTH).all fun x =>
    !(decide (x < row.length) && (row.getD x (some "undefined") == none))

/-- A fresh empty row pushed on top by `clearLines`. -/
def emptyRow : List Cell := List.replicate BOARD_WIDTH none

/-- `clearLines()` from board.js.  Complete rows are collected bottom-to-top;
the ascending index list is then sorted descending (for a strictly
increasing list this is exactly `reverse`), each collected row is spliced
out in that order, and an equal number of empty rows is pushed on top.
Returns (new grid, linesCleared, clearedRows). -/
def clearLines (grid : Grid) : Grid × ℕ × List ℕ :=
  let clearedRows :=
    ((List.range BOARD_HEIGHT).filter fun y => isCompleteRow (grid.getD y [])).reverse
  let grid' :=
    if 0 < clearedRows.length then
      (clearedRows.foldl (fun g i => g.eraseIdx i) grid) ++
        List.replicate clearedRows.length emptyRow
    else grid
  (grid', clearedRows.length, clearedRows)

/-- `reset()` from board.js: `grid[y][x] = null` for every
`y < BOARD_HEIGHT`, `x < BOARD_WIDTH`. -/
def boardReset (grid : Grid) : Grid :=
  (List.range BOARD_HEIGHT).foldl
    (fun g y => (List.range BOARD_WIDTH).foldl (fun g2 x => setCell g2 y x none) g)
    grid

/-- `hasBlocksAboveVisible()` from board.js: any occupant in the two hidden
buffer rows (`BOARD_HEIGHT - 2` and `BOARD_HEIGHT - 1`). -/
def hasBlocksAboveVisible (grid : Grid) : Bool :=
  (List.range 2).any fun k =>
    (List.range BOARD_WIDTH).any fun x =>
      !(cellIsNull grid ((BOARD_HEIGHT : ℤ) - 2 + (k : ℤ)) (x : ℤ))

/-- Well-formedness of a board grid: 22 rows of exactly 10 cells. -/
def BoardWF (grid : Grid) : Prop :=
  grid.length = BOARD_HEIGHT ∧ ∀ row ∈ grid, row.length = BOARD_WIDTH

instance : DecidablePred BoardWF := fun g => by
  unfold BoardWF
  infer_instance

/-! ## Randomizer (bag.js)

The shuffle's random source is modelled as a function `rng : ℕ → ℕ`
together with a running consumption counter: draw number `c` of
`Math.floor(Math.random() * (i + 1))` is modelled as `rng c % (i + 1)`.
Every outcome of the real random source corresponds to some `rng`, and
conversely. -/

/-- One Fisher-Yates swap: `[array[i], array[j]] = [array[j], array[i]]`
(simultaneous assignment, hence both reads are from the original list). -/
def listSwap (a : List Tet) (i j : ℕ) : List Tet :=
  (a.set i (a.getD j .I)).set j (a.getD i .I)

/-- The Fisher-Yates loop of `shuffle` in bag.js: the first argument is the
current loop index `i` (swaps run at indices `i, i-1, ..., 1`), `c` is the
index of the next unconsumed random draw. -/
def fyAux (rng : ℕ → ℕ) : ℕ → ℕ → List Tet → List Tet
  | _, 0, a => a
  | c, i + 1, a => fyAux rng (c + 1) i (listSwap a (i + 1) (rng c % (i + 2)))

/-- `createShuffledBag()`: shuffle a fresh copy of `PIECE_TYPES`,
consuming 6 random draws starting at index `c`. -/
def createShuffledBag (rng : ℕ → ℕ) (c : ℕ) : List Tet :=
  fyAux rng c (PIECE_TYPES.length - 1) PIECE_TYPES

/-- State of a bag instance: the piece queue plus the number of random
draws consumed so far. -/
structure BagState where
  queue : List Tet
  ctr : ℕ
  deriving DecidableEq

theorem listSwap_length (a : List Tet) (i j : ℕ) :
    (listSwap a i j).length = a.length := by
  simp [listSwap]

theorem fyAux_length (rng : ℕ → ℕ) :
    ∀ (i c : ℕ) (a : List Tet), (fyAux rng c i a).length = a.length := by
  intro i
  induction i with
  | zero => intro c a; rfl
  | succ i ih => intro c a; rw [fyAux, ih, listSwap_length]

theorem createShuffledBag_length (rng : ℕ → ℕ) (c : ℕ) :
    (createShuffledBag rng c).length = 7 := by
  rw [createShuffledBag, fyAux_length]; rfl

/-- The `while (queue.length < 14)` loop of `fillQueue()`, with an explicit
iteration bound: each pass appends 7 pieces, so from any state at most two
passes run before the guard fails (`fillQueueAux_spec` proves the bound is
never hit). -/
def fillQueueAux (rng : ℕ → ℕ) : ℕ → BagState → BagState
  | 0, s => s
  | fuel + 1, s =>
    if s.queue.length < 14 then
      fillQueueAux rng fuel ⟨s.queue ++ createShuffledBag rng s.ctr, s.ctr + 6⟩
    else s

/-- `fillQueue()`: append freshly shuffled bags until at least 14 pieces
are queued. -/
def fillQueue (rng : ℕ → ℕ) (s : BagState) : BagState :=
  fillQueueAux rng 2 s

/-- `createBag()`: a bag starts from an empty queue and an initial fill. -/
def createBag (rng : ℕ → ℕ) : BagState := fillQueue rng ⟨[], 0⟩

/-- `Bag.next()`: refill if empty, dequeue the head, then refill.  The
`[]` fallback is unreachable (a filled queue has at least 14 entries). -/
def bagNext (rng : ℕ → ℕ) (s : BagState) : Tet × BagState :=
  let s1 := if s.queue.length = 0 then fillQueue rng s else s
  match s1.queue with
  | [] => (.I, s1)
  | p :: rest => (p, fillQueue rng ⟨rest, s1.ctr⟩)

/-- The outputs and final state of `n` consecutive `next()` calls. -/
def drawN (rng : ℕ → ℕ) : BagState → ℕ → List Tet × BagState
  | s, 0 => ([], s)
  | s, n + 1 =>
    let r := bagNext rng s
    let d := drawN rng r.2 n
    (r.1 :: d.1, d.2)

/-! ## Scoring (scoring.js) -/

def LINE_CLEAR_POINTS : ℕ → ℕ
  | 1 => 100
  | 2 => 300
  | 3 => 500
  | 4 => 800
  | _ => 0

def T_SPIN_POINTS : ℕ → ℕ
  | 0 => 400
  | 1 => 800
  | 2 => 1200
  | 3 => 1600
  | _ => 0

def T_SPIN_MINI_POINTS : ℕ → ℕ
  | 0 => 100
  | 1 => 200
  | _ => 0

def COMBO_BONUS : ℕ := 50

/-- The mutable state of a `createScoring()` instance. -/
structure ScoringState where
  score : ℕ
  lines : ℕ
  level : ℕ
  combo : ℤ
  backToBack : Bool
  piecesPlaced : ℕ
  tSpins : ℕ
  deriving DecidableEq

def createScoring : ScoringState :=
  { score := 0, lines := 0, level := 1, combo := -1, backToBack := false,
    piecesPlaced := 0, tSpins := 0 }

/-- `processLineClear(linesCleared, isTSpin, isTSpinMini)`: returns the
points awarded and the updated state.  `Math.floor(points * 1.5)` on a
nonnegative integer is `points * 3 / 2` in natural division. -/
def processLineClear (st : ScoringState) (linesClearedN : ℕ)
    (isTSpin isTSpinMini : Bool) : ℕ × ScoringState :=
  let r1 : ℕ × Bool × ScoringState :=
    if isTSpin then
      let st := { st with tSpins := st.tSpins + 1 }
      if isTSpinMini then
        (T_SPIN_MINI_POINTS linesClearedN * st.level, true, st)
      else
        (T_SPIN_POINTS linesClearedN * st.level, true, st)
    else if 0 < linesClearedN then
      (LINE_CLEAR_POINTS linesClearedN * st.level,
       decide (linesClearedN = 4), st)
    else (0, false, st)
  let points := r1.1
  let isBackToBackEligible := r1.2.1
  let st := r1.2.2
  let points :=
    if isBackToBackEligible ∧ st.backToBack then points * 3 / 2 else points
  let st :=
    if isBackToBackEligible then { st with backToBack := true }
    else if 0 < linesClearedN then { st with backToBack := false }
    else st
  let r2 : ℕ × ScoringState :=
    if 0 < linesClearedN then
      let st := { st with combo := st.combo + 1 }
      if 0 < st.combo then
        (points + COMBO_BONUS * st.combo.toNat * st.level, st)
      else (points, st)
    else (points, { st with combo := -1 })
  let points := r2.1
  let st := r2.2
  let st :=
    if 0 < linesClearedN then
      let st : ScoringState := { st with lines := st.lines + linesClearedN }
      let newLevel : ℕ := st.lines / 10 + 1
      if st.level < newLevel then { st with level := newLevel } else st
    else st
  (points, { st with score := st.score + points })

/-! ## Engine (game.js `createGame`)

The bag collaborator is abstracted by the stream of piece types it will
deal (`pieces`) together with an index; the real bag refines this through
its `next()` interface.  Timers are rationals (milliseconds). -/

def LOCK_DELAY_MS : ℚ := 500

def MAX_LOCK_RESETS : ℕ := 15

/-- Discrete input actions delivered to `update`. -/
inductive Action where
  | MOVE_LEFT | MOVE_RIGHT | SOFT_DROP | HARD_DROP
  | ROTATE_CW | ROTATE_CCW | HOLD | PAUSE | RESTART
  deriving DecidableEq

/-- The `lockedPiece` snapshot inside a lock result. -/
structure LockedPiece where
  ty : Tet
  rotation : ℤ
  x : ℤ
  y : ℤ
  deriving DecidableEq

/-- The result object built by `lockPiece()`. -/
structure LockResult where
  linesCleared : ℕ
  clearedRows : List ℕ
  isTSpin : Bool
  isTSpinMini : Bool
  lockedPiece : LockedPiece
  deriving DecidableEq

/-- The `lastHardDropEvent` animation record. -/
structure HardDropEvent where
  x : ℤ
  startY : ℤ
  endY : ℤ
  color : String
  ty : Tet
  deriving DecidableEq

/-- Accumulated `lastDropInfo` (soft rows, hard rows). -/
structure DropInfo where
  soft : ℕ
  hard : ℕ
  deriving DecidableEq

/-- The closure state of a `createGame(board, bag)` instance. -/
structure EngineState where
  grid : Grid
  pieces : ℕ → Tet
  pieceIdx : ℕ
  activePiece : Option Tet
  activePieceX : ℤ
  activePieceY : ℤ
  activePieceRot : ℤ
  holdPiece : Option Tet
  holdLocked : Bool
  gravityTimer : ℚ
  gravityInterval : ℚ
  softDropActive : Bool
  softDropRows : ℕ
  lockTimer : ℚ
  lockResets : ℕ
  isOnGround : Bool
  gameOver : Bool
  paused : Bool
  linesCleared : ℕ
  lastActionWasRotation : Bool
  lastRotationUsedKick : Bool
  lastLockResult : Option LockResult
  lastDropInfo : Option DropInfo
  lastHardDropEvent : Option HardDropEvent

/-- `spawnPiece()`: deal the next type from the bag, place it at the spawn
pose, and on success reset the per-piece state. -/
def spawnPiece (s : EngineState) : Bool × EngineState :=
  let pieceType := s.pieces s.pieceIdx
  let s := { s with
    pieceIdx := s.pieceIdx + 1
    activePiece := some pieceType
    activePieceRot := 0
    activePieceX := (BOARD_WIDTH : ℤ) / 2 - 2
    activePieceY := (BOARD_HEIGHT : ℤ) - 2 }
  if !(isValid s.grid s.activePiece s.activePieceX s.activePieceY s.activePieceRot) then
    (false, { s with gameOver := true })
  else
    (true, { s with
      lockTimer := 0, lockResets := 0, isOnGround := false, holdLocked := false,
      softDropActive := false, softDropRows := 0,
      lastActionWasRotation := false, lastRotationUsedKick := false })

/-- `movePiece(dx, dy)`. -/
def movePiece (s : EngineState) (dx dy : ℤ) : Bool × EngineState :=
  match s.activePiece with
  | none => (false, s)
  | some _ =>
    let newX := s.activePieceX + dx
    let newY := s.activePieceY + dy
    if isValid s.grid s.activePiece newX newY s.activePieceRot then
      let s := { s with activePieceX := newX, activePieceY := newY }
      let s :=
        if s.isOnGround ∧ s.lockResets < MAX_LOCK_RESETS then
          { s with lockTimer := 0, lockResets := s.lockResets + 1 }
        else s
      (true, { s with lastActionWasRotation := false })
    else (false, s)

/-- The kick-candidate loop of `rotatePiece`: try each offset in order
(`i` is the candidate index; `i > 0` means a wall kick was used). -/
def rotateTry (s : EngineState) (newRotation : ℤ) :
    List (ℤ × ℤ) → ℕ → Bool × EngineState
  | [], _ => (false, s)
  | k :: rest, i =>
    let kickX := k.1
    let kickY := -k.2
    let newX := s.activePieceX + kickX
    let newY := s.activePieceY + kickY
    if isValid s.grid s.activePiece newX newY newRotation then
      let s1 := { s with
        activePieceX := newX, activePieceY := newY, activePieceRot := newRotation }
      let s2 :=
        if s1.isOnGround ∧ s1.lockResets < MAX_LOCK_RESETS then
          { s1 with lockTimer := 0, lockResets := s1.lockResets + 1 }
        else s1
      (true, { s2 with
        lastActionWasRotation := true, lastRotationUsedKick := decide (0 < i) })
    else rotateTry s newRotation rest (i + 1)

/-- `rotatePiece(direction)` with SRS wall kicks.  JavaScript `%` truncates
toward zero (`Int.tmod`). -/
def rotatePiece (s : EngineState) (direction : ℤ) : Bool × EngineState :=
  match s.activePiece with
  | none => (false, s)
  | some t =>
    let newRotation := (s.activePieceRot + direction + 4).tmod 4
    match WALL_KICKSo t s.activePieceRot newRotation with
    | none => (false, s)
    | some kicks => rotateTry s newRotation kicks 0

/-- `checkTSpin()`: classify the current placement. -/
def checkTSpin (s : EngineState) : Bool × Bool :=
  match s.activePiece with
  | some .T =>
    if s.lastActionWasRotation then
      let centerX := s.activePieceX
      let centerY := s.activePieceY
      let c0 := (centerX - 1, centerY + 1)
      let c1 := (centerX + 1, centerY + 1)
      let c2 := (centerX - 1, centerY - 1)
      let c3 := (centerX + 1, centerY - 1)
      let corners := [c0, c1, c2, c3]
      let occ := fun (c : ℤ × ℤ) =>
        (decide (c.1 < 0) || decide ((BOARD_WIDTH : ℤ) ≤ c.1) ||
         decide (c.2 < 0) || decide ((BOARD_HEIGHT : ℤ) ≤ c.2)) ||
        !(cellIsNull s.grid c.2 c.1)
      let occupiedCorners := (corners.filter occ).length
      if 3 ≤ occupiedCorners then
        if s.lastRotationUsedKick then
          let frontCorners :=
            if s.activePieceRot = 0 then [c0, c1]
            else if s.activePieceRot = 1 then [c1, c3]
            else if s.activePieceRot = 2 then [c2, c3]
            else if s.activePieceRot = 3 then [c0, c2]
            else []
          let frontOccupied := (frontCorners.filter occ).length
          if occupiedCorners = 3 ∧ frontOccupied < 2 then (true, true)
          else (true, false)
        else (true, false)
      else (false, false)
    else (false, false)
  | _ => (false, false)

/-- `lockPiece()`: flush soft-drop rows, classify the T-spin, commit the
piece to the board, clear lines, detect lock-out, publish the lock result
and spawn the next piece. -/
def lockPiece (s : EngineState) : EngineState :=
  match s.activePiece with
  | none => s
  | some t =>
    let s :=
      if 0 < s.softDropRows then
        let di := s.lastDropInfo.getD { soft := 0, hard := 0 }
        { s with lastDropInfo := some { di with soft := di.soft + s.softDropRows },
                 softDropRows := 0 }
      else s
    let tSpinResult := checkTSpin s
    let grid1 := lock s.grid t s.activePieceX s.activePieceY s.activePieceRot
    let cl := clearLines grid1
    let result : LockResult :=
      { linesCleared := cl.2.1, clearedRows := cl.2.2,
        isTSpin := tSpinResult.1, isTSpinMini := tSpinResult.2,
        lockedPiece := { ty := t, rotation := s.activePieceRot,
                         x := s.activePieceX, y := s.activePieceY } }
    let s := { s with grid := cl.1, linesCleared := s.linesCleared + cl.2.1 }
    let s := if hasBlocksAboveVisible s.grid then { s with gameOver := true } else s
    let s := { s with
      lastActionWasRotation := false, lastRotationUsedKick := false,
      lastLockResult := some result, activePiece := none }
    if s.gameOver then s else (spawnPiece s).2

/-- Bound used for the `getGhostY` descent: a pose that `isValid` accepts
has its base `y` at least `-3` (every shape offset has `0 ≤ dy ≤ 3` and
every block must satisfy `0 ≤ y + dy`). -/
theorem isValid_y_lower_bound (grid : Grid) (t : Tet) (x y rot : ℤ)
    (h : isValid grid (some t) x y rot = true) : -3 ≤ y := by
  rcases hs : SHAPESo t rot with _ | shape
  · simp only [isValid, hs] at h
    exact absurd h (by simp)
  · simp only [isValid, hs, List.all_eq_true] at h
    have hmem : ∃ b ∈ shape, 0 ≤ b.2 ∧ b.2 ≤ 3 := by
      unfold SHAPESo at hs
      split at hs
      · cases t <;>
          { simp only [SHAPES] at hs
            rename_i hrot
            obtain ⟨h0, h4⟩ := hrot
            interval_cases rot <;>
              { injection hs with hs; subst hs; decide } }
      · exact absurd hs (by simp)
    obtain ⟨b, hb, hb0, hb3⟩ := hmem
    have := h b hb
    simp only [Bool.and_eq_true, decide_eq_true_eq] at this
    omega

/-- `getGhostY()`: descend while the pose one row lower is still valid. -/
def ghostYAux (grid : Grid) (piece : Option Tet) (x rot : ℤ) (y : ℤ) : ℤ :=
  if h : isValid grid piece x (y - 1) rot = true then
    ghostYAux grid piece x rot (y - 1)
  else y
termination_by (y + 3).toNat
decreasing_by
  rcases piece with _ | t
  · exact absurd h (by simp [isValid])
  · have := isValid_y_lower_bound grid t x (y - 1) rot h
    omega

def getGhostY (s : EngineState) : ℤ :=
  match s.activePiece with
  | none => s.activePieceY
  | some _ => ghostYAux s.grid s.activePiece s.activePieceX s.activePieceRot s.activePieceY

/-- `hardDrop()`: move to the ghost position, record the animation event,
then lock immediately.  Returns the number of rows dropped. -/
def hardDrop (s : EngineState) : ℤ × EngineState :=
  match s.activePiece with
  | none => (0, s)
  | some t =>
    let startY := s.activePieceY
    let targetY := getGhostY s
    let rowsDropped := startY - targetY
    let s := { s with
      lastHardDropEvent := some
        { x := s.activePieceX, startY := startY, endY := targetY,
          color := COLORS t, ty := t },
      activePieceY := targetY }
    (rowsDropped, lockPiece s)

/-- `hold()`. -/
def hold (s : EngineState) : Bool × EngineState :=
  match s.activePiece with
  | none => (false, s)
  | some t =>
    if s.holdLocked then (false, s)
    else
      match s.holdPiece with
      | none =>
        let s := { s with holdPiece := some t, activePiece := none }
        let s := (spawnPiece s).2
        (true, { s with holdLocked := true })
      | some temp =>
        let s := { s with
          holdPiece := some t
          activePiece := some temp
          activePieceRot := 0
          activePieceX := (BOARD_WIDTH : ℤ) / 2 - 2
          activePieceY := (BOARD_HEIGHT : ℤ) - 2 }
        if !(isValid s.grid s.activePiece s.activePieceX s.activePieceY
              s.activePieceRot) then
          (false, { s with gameOver := true })
        else
          (true, { s with lockTimer := 0, lockResets := 0, isOnGround := false,
                          holdLocked := true })

/-- `togglePause()`. -/
def togglePause (s : EngineState) : EngineState :=
  if !s.gameOver then { s with paused := !s.paused } else s

/-- One arm of the action `switch` inside `update`. -/
def processAction (s : EngineState) (a : Action) : EngineState :=
  match a with
  | .MOVE_LEFT => (movePiece s (-1) 0).2
  | .MOVE_RIGHT => (movePiece s 1 0).2
  | .SOFT_DROP => s
  | .HARD_DROP =>
    let r := hardDrop s
    let s := r.2
    if 0 < r.1 then
      let di := s.lastDropInfo.getD { soft := 0, hard := 0 }
      { s with lastDropInfo := some { di with hard := di.hard + r.1.toNat } }
    else s
  | .ROTATE_CW => (rotatePiece s 1).2
  | .ROTATE_CCW => (rotatePiece s (-1)).2
  | .HOLD => (hold s).2
  | .PAUSE => s
  | .RESTART => s

/-- `update(deltaTime, actions)`: the per-tick engine step. -/
def update (s : EngineState) (deltaTime : ℚ) (actions : List Action) :
    EngineState :=
  if s.gameOver ∨ s.activePiece = none then s
  else
    let pr : EngineState × List Action :=
      if actions.contains .PAUSE then
        (togglePause s, actions.filter fun a => a ≠ .PAUSE)
      else (s, actions)
    let s := pr.1
    let actions := pr.2
    if s.paused then s
    else
      let wasSoftDropActive := s.softDropActive
      let s := { s with softDropActive := actions.contains .SOFT_DROP }
      let s := actions.foldl processAction s
      let s :=
        if wasSoftDropActive && !s.softDropActive then
          let s :=
            if 0 < s.softDropRows then
              let di := s.lastDropInfo.getD { soft := 0, hard := 0 }
              { s with lastDropInfo := some { di with soft := di.soft + s.softDropRows } }
            else s
          { s with softDropRows := 0 }
        else s
      let wasOnGround := s.isOnGround
      let s := { s with isOnGround :=
        !(isValid s.grid s.activePiece s.activePieceX (s.activePieceY - 1)
            s.activePieceRot) }
      let s :=
        if !wasOnGround && s.isOnGround then { s with lockTimer := 0, lockResets := 0 }
        else s
      let s :=
        if !s.isOnGround then
          let s := { s with gravityTimer := s.gravityTimer + deltaTime }
          let effectiveInterval : ℚ :=
            if s.softDropActive then min (s.gravityInterval / 20) 50
            else s.gravityInterval
          if effectiveInterval ≤ s.gravityTimer then
            let s := { s with gravityTimer := s.gravityTimer - effectiveInterval }
            let r := movePiece s 0 (-1)
            if !r.1 then { r.2 with isOnGround := true, lockTimer := 0 }
            else if r.2.softDropActive then
              { r.2 with softDropRows := r.2.softDropRows + 1 }
            else r.2
          else s
        else s
      if s.isOnGround then
        let s := { s with lockTimer := s.lockTimer + deltaTime }
        if LOCK_DELAY_MS ≤ s.lockTimer then lockPiece s else s
      else s

/-! ## Helper lemmas -/

/-- On a well-formed grid and in-bounds indices, the JavaScript null test is
the emptiness of the stored cell. -/
theorem cellIsNull_eq_of_wf (grid : Grid) (hwf : BoardWF grid) {y x : ℤ}
    (hy0 : 0 ≤ y) (hy : y < (BOARD_HEIGHT : ℤ)) (hx0 : 0 ≤ x)
    (hx : x < (BOARD_WIDTH : ℤ)) :
    cellIsNull grid y x = (cellAt grid y x == none) := by
  obtain ⟨hlen, hrows⟩ := hwf
  have hy' : y < 22 := by simpa [BOARD_HEIGHT] using hy
  have hx' : x < 10 := by simpa [BOARD_WIDTH] using hx
  have hyl : y.toNat < grid.length := by rw [hlen]; show y.toNat < 22; omega
  have hrow : grid.getD y.toNat [] = grid[y.toNat] := List.getD_eq_getElem _ _ hyl
  have hrl : (grid.getD y.toNat []).length = BOARD_WIDTH := by
    rw [hrow]; exact hrows _ (List.getElem_mem hyl)
  have hxl : x.toNat < (grid.getD y.toNat []).length := by
    rw [hrl]; show x.toNat < 10; omega
  have h1 : y < (grid.length : ℤ) := by rw [hlen]; show y < ((22 : ℕ) : ℤ); omega
  have h2 : x < (((grid.getD y.toNat []).length : ℕ) : ℤ) := by
    rw [hrl]; show x < ((10 : ℕ) : ℤ); omega
  have h2e : x < ((grid[y.toNat]).length : ℤ) := by rw [← hrow]; exact h2
  simp only [cellIsNull, cellAt]
  rw [List.getD_eq_getElem _ _ hxl, List.getD_eq_getElem _ _ hxl]
  simp [hy0, hx0, h1, h2, h2e]

/-! ## Claim theorems -/

/-- **C6.** For every well-formed board grid, piece, position and rotation
state, `isValid` returns false iff some occupied cell of the pose is out of
`[0, 10) × [0, 22)` or coincides with an occupied grid cell, and true
otherwise. -/
theorem c6_isValid_false_iff (grid : Grid) (hwf : BoardWF grid)
    (t : Tet) (x y rot : ℤ) (hr0 : 0 ≤ rot) (hr4 : rot < 4) :
    isValid grid (some t) x y rot = false ↔
      ∃ b ∈ (SHAPES t).getD rot.toNat [],
        ¬(0 ≤ x + b.1 ∧ x + b.1 < (BOARD_WIDTH : ℤ) ∧
          0 ≤ y + b.2 ∧ y + b.2 < (BOARD_HEIGHT : ℤ)) ∨
        cellAt grid (y + b.2) (x + b.1) ≠ none := by
  have hs : SHAPESo t rot = some ((SHAPES t).getD rot.toNat []) := by
    unfold SHAPESo; rw [if_pos ⟨hr0, hr4⟩]
  have hpos : isValid grid (some t) x y rot = true ↔
      ∀ b ∈ (SHAPES t).getD rot.toNat [],
        (0 ≤ x + b.1 ∧ x + b.1 < (BOARD_WIDTH : ℤ) ∧
         0 ≤ y + b.2 ∧ y + b.2 < (BOARD_HEIGHT : ℤ)) ∧
        cellAt grid (y + b.2) (x + b.1) = none := by
    simp only [isValid, hs, List.all_eq_true]
    refine forall₂_congr fun b hb => ?_
    simp only [Bool.and_eq_true, decide_eq_true_eq]
    constructor
    · rintro ⟨⟨⟨⟨h1, h2⟩, h3⟩, h4⟩, h5⟩
      refine ⟨⟨h1, h2, h3, h4⟩, ?_⟩
      rw [cellIsNull_eq_of_wf grid hwf h3 h4 h1 h2] at h5
      simpa using h5
    · rintro ⟨⟨h1, h2, h3, h4⟩, h5⟩
      refine ⟨⟨⟨⟨h1, h2⟩, h3⟩, h4⟩, ?_⟩
      rw [cellIsNull_eq_of_wf grid hwf h3 h4 h1 h2]
      simpa using h5
  rw [← Bool.not_eq_true, hpos]
  simp only [not_forall]
  constructor
  · rintro ⟨b, hb, hnb⟩
    exact ⟨b, hb, not_and_or.mp hnb⟩
  · rintro ⟨b, hb, hnb⟩
    exact ⟨b, hb, not_and_or.mpr hnb⟩

/-- Witness for C6 at a concrete input: the O piece one row below the floor
of the empty board. -/
theorem c6_isValid_false_iff_witness :
    BoardWF createBoardGrid ∧ (0 : ℤ) ≤ 0 ∧ (0 : ℤ) < 4 ∧
    (isValid createBoardGrid (some .O) 3 (-1) 0 = false ↔
      ∃ b ∈ (SHAPES .O).getD (0 : ℤ).toNat [],
        ¬(0 ≤ 3 + b.1 ∧ 3 + b.1 < (BOARD_WIDTH : ℤ) ∧
          0 ≤ -1 + b.2 ∧ -1 + b.2 < (BOARD_HEIGHT : ℤ)) ∨
        cellAt createBoardGrid (-1 + b.2) (3 + b.1) ≠ none) :=
  ⟨by decide, by decide, by decide,
   c6_isValid_false_iff createBoardGrid (by decide) .O 3 (-1) 0
     (by decide) (by decide)⟩

/-- Erasing shifted indices below a protected head leaves the head alone. -/
theorem foldl_eraseIdx_map_succ (idxs : List ℕ) (r : α) :
    ∀ g : List α,
      (idxs.map Nat.succ).foldl (fun g i => g.eraseIdx i) (r :: g) =
        r :: idxs.foldl (fun g i => g.eraseIdx i) g := by
  induction idxs with
  | nil => intro g; rfl
  | cons i idxs ih =>
    intro g
    simp only [List.map_cons, List.foldl_cons, List.eraseIdx_cons_succ]
    exact ih _

/-- Splicing out, in descending order, exactly the indices whose entry
satisfies `p` is the same as filtering those entries out. -/
theorem foldl_eraseIdx_rev_filter (p : α → Bool) (d : α) :
    ∀ l : List α,
      (((List.range l.length).filter fun i => p (l.getD i d)).reverse).foldl
          (fun g i => g.eraseIdx i) l =
        l.filter fun a => !p a := by
  intro l
  induction l with
  | nil => rfl
  | cons r g ih =>
    have hrange : List.range (r :: g).length = 0 :: (List.range g.length).map Nat.succ := by
      simpa using List.range_succ_eq_map g.length
    have hfc : (fun i => p ((r :: g).getD i d)) ∘ Nat.succ =
        fun i => p (g.getD i d) := by
      funext i
      simp only [Function.comp]
      rw [show ((r :: g).getD (Nat.succ i) d) = g.getD i d from List.getD_cons_succ]
    rw [hrange, List.filter_cons,
      show ((r :: g).getD 0 d) = r from List.getD_cons_zero,
      List.filter_map, hfc]
    by_cases hr : p r = true
    · rw [if_pos hr, List.reverse_cons, ← List.map_reverse, List.foldl_append,
        foldl_eraseIdx_map_succ, ih,
        List.filter_cons_of_neg (by simp [hr])]
      rfl
    · rw [if_neg hr, ← List.map_reverse, foldl_eraseIdx_map_succ, ih,
        List.filter_cons_of_pos (by simp at hr; simp [hr])]

/-- The count of matching indices over the range of a list is `countP`. -/
theorem length_range_filter_getD (p : α → Bool) (d : α) :
    ∀ l : List α,
      ((List.range l.length).filter fun i => p (l.getD i d)).length = l.countP p := by
  intro l
  induction l with
  | nil => rfl
  | cons r g ih =>
    have hrange : List.range (r :: g).length = 0 :: (List.range g.length).map Nat.succ := by
      simpa using List.range_succ_eq_map g.length
    have hfc : (fun i => p ((r :: g).getD i d)) ∘ Nat.succ =
        fun i => p (g.getD i d) := by
      funext i
      simp only [Function.comp]
      rw [show ((r :: g).getD (Nat.succ i) d) = g.getD i d from List.getD_cons_succ]
    rw [hrange, List.filter_cons,
      show ((r :: g).getD 0 d) = r from List.getD_cons_zero,
      List.filter_map, hfc, List.countP_cons]
    by_cases hr : p r = true
    · rw [if_pos hr, if_pos hr, List.length_cons, List.length_map, ih]
    · rw [if_neg hr, if_neg hr, List.length_map, ih, Nat.add_zero]

/-- On a width-10 row, the complete-row scan is exactly "every cell
occupied". -/
theorem isCompleteRow_iff (row : List Cell) (h : row.length = BOARD_WIDTH) :
    isCompleteRow row = true ↔ ∀ c ∈ row, c ≠ none := by
  unfold isCompleteRow
  simp only [List.all_eq_true, List.mem_range]
  constructor
  · intro hall c hc
    obtain ⟨i, hi, rfl⟩ := List.mem_iff_getElem.mp hc
    have hi10 : i < BOARD_WIDTH := h ▸ hi
    have := hall i hi10
    rw [List.getD_eq_getElem _ _ hi] at this
    simpa [show i < row.length from hi] using this
  · intro hocc i hi
    have hil : i < row.length := h ▸ hi
    rw [List.getD_eq_getElem _ _ hil]
    have := hocc row[i] (List.getElem_mem hil)
    simpa [hil] using this

/-- On a well-formed grid, the new grid produced by `clearLines` keeps the
non-full rows in order and appends one empty row per removed full row. -/
theorem clearLines_fst_eq (grid : Grid) (hwf : BoardWF grid) :
    (clearLines grid).1 =
      grid.filter (fun row => !isCompleteRow row) ++
        List.replicate (grid.countP isCompleteRow) emptyRow := by
  obtain ⟨hlen, _⟩ := hwf
  have hrange : List.range BOARD_HEIGHT = List.range grid.length := by rw [hlen]
  have hcount :
      ((List.range BOARD_HEIGHT).filter fun y => isCompleteRow (grid.getD y [])).length =
        grid.countP isCompleteRow := by
    rw [hrange]; exact length_range_filter_getD _ _ grid
  have hsplice :
      (((List.range BOARD_HEIGHT).filter fun y =>
          isCompleteRow (grid.getD y [])).reverse).foldl
        (fun g i => g.eraseIdx i) grid =
        grid.filter fun row => !isCompleteRow row := by
    rw [hrange]; exact foldl_eraseIdx_rev_filter _ _ grid
  unfold clearLines
  simp only [List.length_reverse, hcount]
  rcases Nat.eq_zero_or_pos (grid.countP isCompleteRow) with h0 | hpos
  · rw [h0]
    simp only [Nat.lt_irrefl, if_false, List.replicate_zero, List.append_nil]
    have : ∀ row ∈ grid, ¬(isCompleteRow row = true) := by
      intro row hr hc
      exact List.countP_eq_zero.mp h0 row hr hc
    exact (List.filter_eq_self.mpr fun a ha => by
      simpa using this a ha).symm
  · rw [if_pos hpos, hsplice]

/-- `clearLines` leaves the total row count unchanged. -/
theorem clearLines_fst_length (grid : Grid) (hwf : BoardWF grid) :
    (clearLines grid).1.length = BOARD_HEIGHT := by
  rw [clearLines_fst_eq grid hwf]
  obtain ⟨hlen, _⟩ := hwf
  have hsum := List.length_eq_length_filter_add (l := grid) isCompleteRow
  simp only [List.length_append, List.length_replicate]
  have hcc : grid.countP isCompleteRow = (grid.filter isCompleteRow).length :=
    List.countP_eq_length_filter _ _
  omega

/-- The count scan of `clearLines`. -/
theorem clearLines_count (grid : Grid) (hwf : BoardWF grid) :
    (clearLines grid).2.1 = grid.countP isCompleteRow := by
  obtain ⟨hlen, _⟩ := hwf
  have hrange : List.range BOARD_HEIGHT = List.range grid.length := by rw [hlen]
  unfold clearLines
  simp only [List.length_reverse]
  rw [hrange]
  exact length_range_filter_getD _ _ grid

/-- **C5.** On every well-formed board grid, `clearLines` returns the count
and (descending) indices of exactly the fully-occupied rows, removes
exactly those rows (also when several non-contiguous rows clear at once),
shifts the remaining rows down in order, and appends the same number of
empty rows at the top, leaving the total row count unchanged. -/
theorem c5_clearLines_spec (grid : Grid) (hwf : BoardWF grid) :
    (clearLines grid).2.1 = grid.countP isCompleteRow ∧
    (clearLines grid).2.2 =
      ((List.range BOARD_HEIGHT).filter fun y => isCompleteRow (grid.getD y [])).reverse ∧
    (clearLines grid).1 =
      grid.filter (fun row => !isCompleteRow row) ++
        List.replicate (grid.countP isCompleteRow) emptyRow ∧
    (clearLines grid).1.length = BOARD_HEIGHT ∧
    (∀ row ∈ grid, isCompleteRow row = true ↔ ∀ c ∈ row, c ≠ none) :=
  ⟨clearLines_count grid hwf, rfl, clearLines_fst_eq grid hwf,
   clearLines_fst_length grid hwf,
   fun row hr => isCompleteRow_iff row (hwf.2 row hr)⟩

/-- A concrete board whose rows 0 and 2 are full (non-contiguous) and whose
row 1 is only part-filled. -/
def gridTwoFullRows : Grid :=
  (List.range BOARD_HEIGHT).map fun y =>
    if y = 0 ∨ y = 2 then List.replicate BOARD_WIDTH (some "#ffffff")
    else if y = 1 then some "#ffffff" :: List.replicate 9 (none : Cell)
    else List.replicate BOARD_WIDTH (none : Cell)

/-- Witness for C5 on the two-full-rows board. -/
theorem c5_clearLines_spec_witness :
    BoardWF gridTwoFullRows ∧
    ((clearLines gridTwoFullRows).2.1 = gridTwoFullRows.countP isCompleteRow ∧
     (clearLines gridTwoFullRows).2.2 =
       ((List.range BOARD_HEIGHT).filter fun y =>
         isCompleteRow (gridTwoFullRows.getD y [])).reverse ∧
     (clearLines gridTwoFullRows).1 =
       gridTwoFullRows.filter (fun row => !isCompleteRow row) ++
         List.replicate (gridTwoFullRows.countP isCompleteRow) emptyRow ∧
     (clearLines gridTwoFullRows).1.length = BOARD_HEIGHT ∧
     (∀ row ∈ gridTwoFullRows, isCompleteRow row = true ↔ ∀ c ∈ row, c ≠ none)) :=
  ⟨by decide, c5_clearLines_spec gridTwoFullRows (by decide)⟩

/-! ## C8: board shape invariant -/

/-- The board operations named by the invariant claim.  `isValid` is a pure
query and leaves the grid untouched. -/
inductive BoardOp where
  | validOp (piece : Option Tet) (x y rot : ℤ)
  | lockOp (t : Tet) (x y rot : ℤ)
  | clearOp
  | resetOp

def applyBoardOp (g : Grid) : BoardOp → Grid
  | .validOp _ _ _ _ => g
  | .lockOp t x y rot => lock g t x y rot
  | .clearOp => (clearLines g).1
  | .resetOp => boardReset g

def applyBoardOps (g : Grid) (ops : List BoardOp) : Grid :=
  ops.foldl applyBoardOp g

theorem BoardWF_setCell {g : Grid} (h : BoardWF g) (y x : ℕ) (v : Cell) :
    BoardWF (setCell g y x v) := by
  obtain ⟨hlen, hrows⟩ := h
  by_cases hy : y < g.length
  · refine ⟨by simpa [setCell] using hlen, ?_⟩
    intro row hrow
    rcases List.mem_or_eq_of_mem_set hrow with hmem | rfl
    · exact hrows row hmem
    · rw [List.length_set, List.getD_eq_getElem _ _ hy]
      exact hrows _ (List.getElem_mem hy)
  · rw [setCell, List.set_eq_of_length_le (by omega)]
    exact ⟨hlen, hrows⟩

theorem BoardWF_lock {g : Grid} (h : BoardWF g) (t : Tet) (x y rot : ℤ) :
    BoardWF (lock g t x y rot) := by
  unfold lock
  rcases SHAPESo t rot with _ | shape
  · exact h
  · induction shape generalizing g with
    | nil => exact h
    | cons b bs ih =>
      simp only [List.foldl_cons]
      split
      · exact ih (BoardWF_setCell h _ _ _)
      · exact ih h

theorem BoardWF_clearLines {g : Grid} (h : BoardWF g) :
    BoardWF (clearLines g).1 := by
  rw [clearLines_fst_eq g h]
  refine ⟨?_, ?_⟩
  · have := clearLines_fst_length g h
    rwa [clearLines_fst_eq g h] at this
  · intro row hrow
    rcases List.mem_append.mp hrow with hmem | hmem
    · exact h.2 row (List.mem_of_mem_filter hmem)
    · rw [List.eq_of_mem_replicate hmem]
      simp [emptyRow]

theorem BoardWF_boardReset {g : Grid} (h : BoardWF g) :
    BoardWF (boardReset g) := by
  unfold boardReset
  generalize List.range BOARD_HEIGHT = ys
  induction ys generalizing g with
  | nil => exact h
  | cons y ys ihy =>
    simp only [List.foldl_cons]
    refine ihy ?_
    generalize List.range BOARD_WIDTH = xs
    induction xs generalizing g with
    | nil => exact h
    | cons x xs ihx =>
      simp only [List.foldl_cons]
      exact ihx (BoardWF_setCell h _ _ _)

/-- **C8.** Starting from `createBoard()`'s grid, every sequence of
`isValid`, `lock`, `clearLines` and `reset` calls preserves the board
shape: exactly 22 rows of exactly 10 cells, each cell `null` (`none`) or a
color string (`some`, enforced by the `Cell` type). -/
theorem c8_board_shape_invariant (ops : List BoardOp) :
    BoardWF (applyBoardOps createBoardGrid ops) := by
  suffices hgen : ∀ (ops : List BoardOp) (g : Grid), BoardWF g →
      BoardWF (applyBoardOps g ops) from
    hgen ops createBoardGrid (by decide)
  intro ops
  induction ops with
  | nil => intro g hg; exact hg
  | cons op ops ih =>
    intro g hg
    rw [applyBoardOps, List.foldl_cons]
    refine ih _ ?_
    cases op with
    | validOp piece x y rot => exact hg
    | lockOp t x y rot => exact BoardWF_lock hg t x y rot
    | clearOp => exact BoardWF_clearLines hg
    | resetOp => exact BoardWF_boardReset hg

/-! ## C10: totality of `lock` -/

/-- Cell lookup by natural-number indices (out of range reads `none`). -/
def natCellAt (g : Grid) (cy cx : ℕ) : Cell :=
  (g.getD cy []).getD cx none

theorem getD_set_of_ne (l : List α) (i j : ℕ) (a d : α) (h : i ≠ j) :
    (l.set i a).getD j d = l.getD j d := by
  rw [List.getD_eq_getElem?_getD, List.getElem?_set_ne h,
    ← List.getD_eq_getElem?_getD]

theorem getD_set_self (l : List α) (i : ℕ) (a d : α) (h : i < l.length) :
    (l.set i a).getD i d = a := by
  rw [List.getD_eq_getElem?_getD, List.getElem?_set_self h, Option.getD_some]

theorem natCellAt_setCell_ne (g : Grid) (ay ax cy cx : ℕ) (v : Cell)
    (h : ay ≠ cy ∨ ax ≠ cx) :
    natCellAt (setCell g ay ax v) cy cx = natCellAt g cy cx := by
  unfold natCellAt setCell
  by_cases hy : ay = cy
  · subst hy
    rcases h with h | h
    · exact absurd rfl h
    · by_cases hlen : ay < g.length
      · rw [getD_set_self g ay _ _ hlen, getD_set_of_ne _ _ _ _ _ h]
      · rw [List.set_eq_of_length_le (by omega)]
  · rw [getD_set_of_ne _ _ _ _ _ hy]

theorem natCellAt_setCell_self (g : Grid) (cy cx : ℕ) (v : Cell)
    (hy : cy < g.length) (hx : cx < (g.getD cy []).length) :
    natCellAt (setCell g cy cx v) cy cx = v := by
  unfold natCellAt setCell
  rw [getD_set_self g cy _ _ hy, getD_set_self _ cx _ _ hx]

/-- The per-block write loop of `lock`, characterised cell by cell: a cell
receives the piece color iff some block of the (remaining) shape lands on
it inside the board; every other cell keeps its value. -/
theorem lock_foldl_cellAt (t : Tet) (x y : ℤ) (cy cx : ℕ)
    (hcy : cy < BOARD_HEIGHT) (hcx : cx < BOARD_WIDTH) :
    ∀ (bs : List (ℤ × ℤ)) (g : Grid), BoardWF g →
      natCellAt
        (bs.foldl
          (fun g b =>
            let blockX := x + b.1
            let blockY := y + b.2
            if 0 ≤ blockX ∧ blockX < (BOARD_WIDTH : ℤ) ∧
               0 ≤ blockY ∧ blockY < (BOARD_HEIGHT : ℤ) then
              setCell g blockY.toNat blockX.toNat (some (COLORS t))
            else g)
          g) cy cx =
        (if ∃ b ∈ bs, x + b.1 = (cx : ℤ) ∧ y + b.2 = (cy : ℤ)
         then some (COLORS t) else natCellAt g cy cx) := by
  intro bs
  induction bs with
  | nil => intro g hg; simp
  | cons b bs ih =>
    intro g hg
    simp only [List.foldl_cons]
    set g1 := (if 0 ≤ x + b.1 ∧ x + b.1 < (BOARD_WIDTH : ℤ) ∧
        0 ≤ y + b.2 ∧ y + b.2 < (BOARD_HEIGHT : ℤ) then
      setCell g (y + b.2).toNat (x + b.1).toNat (some (COLORS t))
      else g) with hg1
    have hg1wf : BoardWF g1 := by
      rw [hg1]; split
      · exact BoardWF_setCell hg _ _ _
      · exact hg
    rw [ih g1 hg1wf]
    by_cases hbs : ∃ b' ∈ bs, x + b'.1 = (cx : ℤ) ∧ y + b'.2 = (cy : ℤ)
    · rw [if_pos hbs, if_pos ⟨_, List.mem_cons_of_mem b hbs.choose_spec.1, hbs.choose_spec.2⟩]
    · rw [if_neg hbs]
      by_cases hb : x + b.1 = (cx : ℤ) ∧ y + b.2 = (cy : ℤ)
      · obtain ⟨h1, h2⟩ := hb
        have hcx' : cx < 10 := hcx
        have hcy' : cy < 22 := hcy
        have hin : 0 ≤ x + b.1 ∧ x + b.1 < (BOARD_WIDTH : ℤ) ∧
            0 ≤ y + b.2 ∧ y + b.2 < (BOARD_HEIGHT : ℤ) := by
          rw [h1, h2]
          show 0 ≤ (cx : ℤ) ∧ (cx : ℤ) < ((10 : ℕ) : ℤ) ∧
            0 ≤ (cy : ℤ) ∧ (cy : ℤ) < ((22 : ℕ) : ℤ)
          omega
        rw [hg1, if_pos hin]
        have hyn : (y + b.2).toNat = cy := by omega
        have hxn : (x + b.1).toNat = cx := by omega
        have hglen : cy < g.length := by
          have : g.length = 22 := hg.1
          omega
        have hrlen : cx < (g.getD cy []).length := by
          rw [List.getD_eq_getElem _ _ hglen]
          have : (g[cy]).length = BOARD_WIDTH := hg.2 _ (List.getElem_mem hglen)
          omega
        rw [hyn, hxn, natCellAt_setCell_self g cy cx _ hglen hrlen,
          if_pos ⟨b, List.mem_cons_self b bs, h1, h2⟩]
      · rw [if_neg (by
          rintro ⟨b', hb', hh⟩
          rcases List.mem_cons.mp hb' with rfl | hmem
          · exact hb hh
          · exact hbs ⟨b', hmem, hh⟩)]
        rw [hg1]
        split
        · rename_i hin
          refine natCellAt_setCell_ne g _ _ cy cx _ ?_
          by_cases hyy : (y + b.2).toNat = cy
          · refine Or.inr ?_
            intro hxx
            exact hb ⟨by omega, by omega⟩
          · exact Or.inl hyy
        · rfl

/-- **C10.** `board.lock` is total: on a well-formed board it writes the
piece color exactly to the in-bounds pose cells, silently skips
out-of-bounds pose cells instead of failing, and leaves every other cell
(and the board shape) unchanged. -/
theorem c10_lock_cells (grid : Grid) (hwf : BoardWF grid) (t : Tet)
    (x y rot : ℤ) (hr0 : 0 ≤ rot) (hr4 : rot < 4) (cy cx : ℕ)
    (hcy : cy < BOARD_HEIGHT) (hcx : cx < BOARD_WIDTH) :
    BoardWF (lock grid t x y rot) ∧
    natCellAt (lock grid t x y rot) cy cx =
      (if ∃ b ∈ (SHAPES t).getD rot.toNat [],
          x + b.1 = (cx : ℤ) ∧ y + b.2 = (cy : ℤ)
       then some (COLORS t) else natCellAt grid cy cx) := by
  refine ⟨BoardWF_lock hwf t x y rot, ?_⟩
  have hs : SHAPESo t rot = some ((SHAPES t).getD rot.toNat []) := by
    unfold SHAPESo; rw [if_pos ⟨hr0, hr4⟩]
  unfold lock
  rw [hs]
  exact lock_foldl_cellAt t x y cy cx hcy hcx _ grid hwf

/-- Witness for C10: a T piece at (2, 3), rotation 0, locked into the empty
board; the inspected cell (row 4, column 3) is one of its pose cells. -/
theorem c10_lock_cells_witness :
    BoardWF createBoardGrid ∧ (0 : ℤ) ≤ 0 ∧ (0 : ℤ) < 4 ∧ 4 < BOARD_HEIGHT ∧
    3 < BOARD_WIDTH ∧
    (BoardWF (lock createBoardGrid .T 2 3 0) ∧
     natCellAt (lock createBoardGrid .T 2 3 0) 4 3 =
       (if ∃ b ∈ (SHAPES .T).getD (0 : ℤ).toNat [],
           2 + b.1 = ((3 : ℕ) : ℤ) ∧ 3 + b.2 = ((4 : ℕ) : ℤ)
        then some (COLORS .T) else natCellAt createBoardGrid 4 3)) :=
  ⟨by decide, by decide, by decide, by decide, by decide,
   c10_lock_cells createBoardGrid (by decide) .T 2 3 0 (by decide) (by decide)
     4 3 (by decide) (by decide)⟩

/-! ## C3: T-spin classification -/

/-- The four diagonal neighbour cells of the pivot `(x, y)` in the order
used by `checkTSpin` (top-left, top-right, bottom-left, bottom-right). -/
def tSpinCorners (x y : ℤ) : List (ℤ × ℤ) :=
  [(x - 1, y + 1), (x + 1, y + 1), (x - 1, y - 1), (x + 1, y - 1)]

/-- A corner counts as occupied iff it is out of bounds or holds a block. -/
def cornerOccupiedSpec (grid : Grid) (c : ℤ × ℤ) : Prop :=
  c.1 < 0 ∨ (BOARD_WIDTH : ℤ) ≤ c.1 ∨ c.2 < 0 ∨ (BOARD_HEIGHT : ℤ) ≤ c.2 ∨
    cellAt grid c.2 c.1 ≠ none

instance (grid : Grid) (c : ℤ × ℤ) : Decidable (cornerOccupiedSpec grid c) := by
  unfold cornerOccupiedSpec
  infer_instance

/-- Number of occupied diagonal corners around the pivot. -/
def tSpinCornerCount (grid : Grid) (x y : ℤ) : ℕ :=
  (tSpinCorners x y).countP fun c => decide (cornerOccupiedSpec grid c)

/-- The rotation-dependent front corner pair of `checkTSpin`. -/
def tSpinFrontCorners (rot x y : ℤ) : List (ℤ × ℤ) :=
  if rot = 0 then [(x - 1, y + 1), (x + 1, y + 1)]
  else if rot = 1 then [(x + 1, y + 1), (x + 1, y - 1)]
  else if rot = 2 then [(x - 1, y - 1), (x + 1, y - 1)]
  else if rot = 3 then [(x - 1, y + 1), (x - 1, y - 1)]
  else []

/-- Number of occupied front corners. -/
def tSpinFrontCount (grid : Grid) (rot x y : ℤ) : ℕ :=
  (tSpinFrontCorners rot x y).countP fun c => decide (cornerOccupiedSpec grid c)

/-- The corner-occupancy test of `checkTSpin` agrees with the spec-side
occupancy predicate on well-formed grids. -/
theorem cornerOcc_eq_decide (grid : Grid) (hwf : BoardWF grid) (c : ℤ × ℤ) :
    ((decide (c.1 < 0) || decide ((BOARD_WIDTH : ℤ) ≤ c.1) ||
      decide (c.2 < 0) || decide ((BOARD_HEIGHT : ℤ) ≤ c.2)) ||
     !(cellIsNull grid c.2 c.1)) =
      decide (cornerOccupiedSpec grid c) := by
  by_cases h1 : c.1 < 0
  · simp [cornerOccupiedSpec, h1]
  by_cases h2 : (BOARD_WIDTH : ℤ) ≤ c.1
  · simp [cornerOccupiedSpec, h2]
  by_cases h3 : c.2 < 0
  · simp [cornerOccupiedSpec, h3]
  by_cases h4 : (BOARD_HEIGHT : ℤ) ≤ c.2
  · simp [cornerOccupiedSpec, h4]
  have hb : cellIsNull grid c.2 c.1 = (cellAt grid c.2 c.1 == none) :=
    cellIsNull_eq_of_wf grid hwf (by omega) (by omega) (by omega) (by omega)
  by_cases hxx : cellAt grid c.2 c.1 = none <;>
    simp [cornerOccupiedSpec, h1, h2, h3, h4, hb, hxx]

/-- `checkTSpin`, rewritten in terms of the two spec-side corner counts
(requires a T piece whose last successful action was a rotation). -/
theorem checkTSpin_eq (s : EngineState) (hwf : BoardWF s.grid)
    (hT : s.activePiece = some .T) (hlast : s.lastActionWasRotation = true) :
    checkTSpin s =
      (if 3 ≤ tSpinCornerCount s.grid s.activePieceX s.activePieceY then
        (if s.lastRotationUsedKick then
          (if tSpinCornerCount s.grid s.activePieceX s.activePieceY = 3 ∧
              tSpinFrontCount s.grid s.activePieceRot s.activePieceX
                s.activePieceY < 2 then
            (true, true)
          else (true, false))
        else (true, false))
      else (false, false)) := by
  have hoccfun :
      (fun c : ℤ × ℤ =>
        ((decide (c.1 < 0) || decide ((BOARD_WIDTH : ℤ) ≤ c.1) ||
          decide (c.2 < 0) || decide ((BOARD_HEIGHT : ℤ) ≤ c.2)) ||
         !(cellIsNull s.grid c.2 c.1))) =
        fun c => decide (cornerOccupiedSpec s.grid c) :=
    funext fun c => cornerOcc_eq_decide s.grid hwf c
  have hfilt : ∀ l : List (ℤ × ℤ),
      (l.filter fun c : ℤ × ℤ =>
        ((decide (c.1 < 0) || decide ((BOARD_WIDTH : ℤ) ≤ c.1) ||
          decide (c.2 < 0) || decide ((BOARD_HEIGHT : ℤ) ≤ c.2)) ||
         !(cellIsNull s.grid c.2 c.1))).length =
        l.countP (fun c => decide (cornerOccupiedSpec s.grid c)) := fun l => by
    rw [hoccfun, ← List.countP_eq_length_filter]
  simp only [checkTSpin, hT, hlast, if_true]
  rw [hfilt, hfilt]
  rfl

/-- **C3.** For a T piece whose immediately preceding successful action was
a rotation, on a well-formed board: `isTSpin` holds iff at least 3 of the 4
diagonal pivot neighbours are occupied (out of bounds counts as occupied);
`isTSpinMini` holds iff additionally the committing rotation used a kick
candidate of index > 0, exactly 3 corners are occupied and fewer than 2 of
the rotation-dependent front pair are occupied; with all 4 corners
occupied the result is `isTSpin` and not `isTSpinMini`. -/
theorem c3_checkTSpin_spec (s : EngineState) (hwf : BoardWF s.grid)
    (hT : s.activePiece = some .T) (hlast : s.lastActionWasRotation = true) :
    ((checkTSpin s).1 = true ↔
      3 ≤ tSpinCornerCount s.grid s.activePieceX s.activePieceY) ∧
    ((checkTSpin s).2 = true ↔
      (checkTSpin s).1 = true ∧ s.lastRotationUsedKick = true ∧
      tSpinCornerCount s.grid s.activePieceX s.activePieceY = 3 ∧
      tSpinFrontCount s.grid s.activePieceRot s.activePieceX s.activePieceY < 2) ∧
    (tSpinCornerCount s.grid s.activePieceX s.activePieceY = 4 →
      checkTSpin s = (true, false)) := by
  rw [checkTSpin_eq s hwf hT hlast]
  set n := tSpinCornerCount s.grid s.activePieceX s.activePieceY with hn
  set f := tSpinFrontCount s.grid s.activePieceRot s.activePieceX s.activePieceY
    with hf
  by_cases h3 : 3 ≤ n
  · cases hk : s.lastRotationUsedKick with
    | false =>
      rw [if_pos h3, if_neg (by simp [hk])]
      refine ⟨by simp [h3], ?_, fun _ => rfl⟩
      constructor
      · intro h; exact absurd h (by simp)
      · rintro ⟨_, hkick, _, _⟩; exact absurd hkick (by simp [hk])
    | true =>
      rw [if_pos h3, if_pos (by simp [hk])]
      by_cases hm : n = 3 ∧ f < 2
      · rw [if_pos hm]
        refine ⟨by simp [h3], ?_, ?_⟩
        · simp [hk, hm.1, hm.2]
        · intro h4
          exfalso
          have := hm.1
          omega
      · rw [if_neg hm]
        refine ⟨by simp [h3], ?_, fun _ => rfl⟩
        constructor
        · intro h; exact absurd h (by simp)
        · rintro ⟨_, _, hn3, hf2⟩; exact absurd ⟨hn3, hf2⟩ hm
  · rw [if_neg h3]
    refine ⟨by simp [h3], ?_, ?_⟩
    · constructor
      · intro h; exact absurd h (by simp)
      · rintro ⟨h, _⟩; exact absurd h (by simp)
    · intro h4; exfalso; omega

/-- A baseline engine state on the empty board, used by the concrete
witnesses. -/
def baseEngine : EngineState where
  grid := createBoardGrid
  pieces := fun _ => .I
  pieceIdx := 0
  activePiece := some .O
  activePieceX := 3
  activePieceY := 0
  activePieceRot := 0
  holdPiece := none
  holdLocked := false
  gravityTimer := 0
  gravityInterval := 1000
  softDropActive := false
  softDropRows := 0
  lockTimer := 0
  lockResets := 0
  isOnGround := true
  gameOver := false
  paused := false
  linesCleared := 0
  lastActionWasRotation := false
  lastRotationUsedKick := false
  lastLockResult := none
  lastDropInfo := none
  lastHardDropEvent := none

/-- A board whose four cells diagonal to the pivot (4, 10) are occupied. -/
def gridC3 : Grid :=
  (List.range BOARD_HEIGHT).map fun y =>
    (List.range BOARD_WIDTH).map fun x =>
      if (x = 3 ∨ x = 5) ∧ (y = 9 ∨ y = 11) then some "#888888"
      else (none : Cell)

/-- The engine state for the C3 witness: a T piece at (4, 10), rotation 0,
just rotated with a wall kick, all four diagonal corners occupied. -/
def engineC3 : EngineState :=
  { baseEngine with
    grid := gridC3
    activePiece := some .T
    activePieceX := 4
    activePieceY := 10
    activePieceRot := 0
    lastActionWasRotation := true
    lastRotationUsedKick := true }

/-- Witness for C3 at the all-four-corners state. -/
theorem c3_checkTSpin_spec_witness :
    BoardWF engineC3.grid ∧ engineC3.activePiece = some .T ∧
    engineC3.lastActionWasRotation = true ∧
    (((checkTSpin engineC3).1 = true ↔
       3 ≤ tSpinCornerCount engineC3.grid engineC3.activePieceX
             engineC3.activePieceY) ∧
     ((checkTSpin engineC3).2 = true ↔
       (checkTSpin engineC3).1 = true ∧ engineC3.lastRotationUsedKick = true ∧
       tSpinCornerCount engineC3.grid engineC3.activePieceX
         engineC3.activePieceY = 3 ∧
       tSpinFrontCount engineC3.grid engineC3.activePieceRot
         engineC3.activePieceX engineC3.activePieceY < 2) ∧
     (tSpinCornerCount engineC3.grid engineC3.activePieceX
        engineC3.activePieceY = 4 →
       checkTSpin engineC3 = (true, false))) :=
  ⟨by decide, rfl, rfl, c3_checkTSpin_spec engineC3 (by decide) rfl rfl⟩

/-! ## C7: rejected transitions -/

/-- If every kick candidate is invalid, the kick loop reports failure and
returns the state unchanged. -/
theorem rotateTry_all_fail (s : EngineState) (newRotation : ℤ) :
    ∀ (ks : List (ℤ × ℤ)) (i : ℕ),
      (∀ k ∈ ks, isValid s.grid s.activePiece (s.activePieceX + k.1)
        (s.activePieceY + -k.2) newRotation = false) →
      rotateTry s newRotation ks i = (false, s) := by
  intro ks
  induction ks with
  | nil => intro i _; rfl
  | cons k ks ih =>
    intro i hall
    rw [rotateTry, if_neg (by simp [hall k (List.mem_cons_self k ks)])]
    exact ih (i + 1) fun k' hk' => hall k' (List.mem_cons_of_mem k hk')

/-- **C7.** In every engine state: a `movePiece` whose target pose is
invalid returns `false` and leaves the entire engine state unchanged
(position, rotation, board, timers, reset count and spin flags included),
and independently a `rotatePiece` that exhausts every kick candidate
without finding a valid pose returns `false` with the state unchanged;
neither can fail in any other way. -/
theorem c7_rejected_transition_no_change (s : EngineState) :
    (∀ dx dy : ℤ,
      isValid s.grid s.activePiece (s.activePieceX + dx)
        (s.activePieceY + dy) s.activePieceRot = false →
      movePiece s dx dy = (false, s)) ∧
    (∀ (t : Tet) (direction : ℤ), s.activePiece = some t →
      (∀ k ∈ (WALL_KICKSo t s.activePieceRot
          ((s.activePieceRot + direction + 4).tmod 4)).getD [],
        isValid s.grid s.activePiece (s.activePieceX + k.1)
          (s.activePieceY + -k.2)
          ((s.activePieceRot + direction + 4).tmod 4) = false) →
      rotatePiece s direction = (false, s)) := by
  constructor
  · intro dx dy hmv
    rcases hp : s.activePiece with _ | t
    · simp [movePiece, hp]
    · rw [hp] at hmv
      unfold movePiece
      rw [hp, if_neg (by simp [hmv])]
  · intro t direction hp hrot
    simp only [rotatePiece, hp]
    rcases hk : WALL_KICKSo t s.activePieceRot
        ((s.activePieceRot + direction + 4).tmod 4) with _ | ks
    · rfl
    · rw [hk] at hrot
      exact rotateTry_all_fail s _ ks 0 (by simpa using hrot)

/-- A board occupied everywhere except the four cells of a T piece at
(3, 5), rotation 0: every move and every kicked rotation is blocked. -/
def gridC7 : Grid :=
  (List.range BOARD_HEIGHT).map fun y =>
    (List.range BOARD_WIDTH).map fun x =>
      if (x = 4 ∧ y = 5) ∨ ((x = 3 ∨ x = 4 ∨ x = 5) ∧ y = 6) then (none : Cell)
      else some "#888888"

/-- The fully boxed-in engine state for the C7 witness. -/
def engineC7 : EngineState :=
  { baseEngine with
    grid := gridC7
    activePiece := some .T
    activePieceX := 3
    activePieceY := 5
    activePieceRot := 0 }

/-- Witness for C7: in the boxed-in state, moving down fails and,
independently, a clockwise rotation exhausts all five kick candidates;
each half of the theorem applies on its own hypotheses. -/
theorem c7_rejected_transition_no_change_witness :
    isValid engineC7.grid engineC7.activePiece (engineC7.activePieceX + 0)
      (engineC7.activePieceY + -1) engineC7.activePieceRot = false ∧
    engineC7.activePiece = some .T ∧
    (∀ k ∈ (WALL_KICKSo .T engineC7.activePieceRot
        ((engineC7.activePieceRot + 1 + 4).tmod 4)).getD [],
      isValid engineC7.grid engineC7.activePiece (engineC7.activePieceX + k.1)
        (engineC7.activePieceY + -k.2)
        ((engineC7.activePieceRot + 1 + 4).tmod 4) = false) ∧
    movePiece engineC7 0 (-1) = (false, engineC7) ∧
    rotatePiece engineC7 1 = (false, engineC7) :=
  ⟨by decide, rfl, by intro k hk; fin_cases hk <;> decide,
   (c7_rejected_transition_no_change engineC7).1 0 (-1) (by decide),
   (c7_rejected_transition_no_change engineC7).2 .T 1 rfl
     (by intro k hk; fin_cases hk <;> decide)⟩

/-! ## C9: trivial first kick -/

/-- Committing on a leading `(0, 0)` kick candidate keeps the position and
sets exactly the new rotation. -/
theorem rotateTry_zero_head (s : EngineState) (nr : ℤ) (rest : List (ℤ × ℤ))
    (hv : isValid s.grid s.activePiece s.activePieceX s.activePieceY nr = true) :
    (rotateTry s nr ((0, 0) :: rest) 0).1 = true ∧
    (rotateTry s nr ((0, 0) :: rest) 0).2.activePieceX = s.activePieceX ∧
    (rotateTry s nr ((0, 0) :: rest) 0).2.activePieceY = s.activePieceY ∧
    (rotateTry s nr ((0, 0) :: rest) 0).2.activePieceRot = nr := by
  have h0 : s.activePieceX + (0 : ℤ) = s.activePieceX := by ring
  have h1 : s.activePieceY + -(0 : ℤ) = s.activePieceY := by ring
  simp only [rotateTry, h0, h1, hv, if_true]
  split <;> simp

/-- **C9.** For every piece type and each of the eight adjacent rotation
transitions, the first wall-kick candidate is `(0, 0)`; consequently a
rotation whose undisplaced target pose is already valid succeeds with the
piece's x and y unchanged and exactly the target rotation committed. -/
theorem c9_first_kick_is_identity :
    (∀ (t : Tet), ∀ fromR ∈ ([0, 1, 2, 3] : List ℤ), ∀ d ∈ ([1, -1] : List ℤ),
      ((WALL_KICKSo t fromR ((fromR + d + 4).tmod 4)).getD []).head? =
        some (0, 0)) ∧
    (∀ (s : EngineState) (t : Tet) (d : ℤ), s.activePiece = some t →
      s.activePieceRot ∈ ([0, 1, 2, 3] : List ℤ) → d ∈ ([1, -1] : List ℤ) →
      isValid s.grid s.activePiece s.activePieceX s.activePieceY
        ((s.activePieceRot + d + 4).tmod 4) = true →
      (rotatePiece s d).1 = true ∧
      (rotatePiece s d).2.activePieceX = s.activePieceX ∧
      (rotatePiece s d).2.activePieceY = s.activePieceY ∧
      (rotatePiece s d).2.activePieceRot = (s.activePieceRot + d + 4).tmod 4) := by
  have hhead : ∀ (t : Tet), ∀ fromR ∈ ([0, 1, 2, 3] : List ℤ),
      ∀ d ∈ ([1, -1] : List ℤ),
      ((WALL_KICKSo t fromR ((fromR + d + 4).tmod 4)).getD []).head? =
        some (0, 0) := by intro t; cases t <;> decide
  refine ⟨hhead, ?_⟩
  intro s t d hp hr hd hv
  have hh := hhead t s.activePieceRot hr d hd
  rcases hk : WALL_KICKSo t s.activePieceRot ((s.activePieceRot + d + 4).tmod 4)
    with _ | ks
  · rw [hk] at hh; simp at hh
  · rw [hk] at hh
    cases ks with
    | nil => simp at hh
    | cons k rest =>
      have hk0 : k = (0, 0) := by simpa using hh
      subst hk0
      have heq : rotatePiece s d = rotateTry s
          ((s.activePieceRot + d + 4).tmod 4) ((0, 0) :: rest) 0 := by
        simp only [rotatePiece, hp, hk]
      rw [heq]
      exact rotateTry_zero_head s _ rest hv

/-- Witness for C9: an O piece at the spawn pose on the empty board rotates
in place. -/
theorem c9_first_kick_is_identity_witness :
    baseEngine.activePiece = some .O ∧
    baseEngine.activePieceRot ∈ ([0, 1, 2, 3] : List ℤ) ∧
    (1 : ℤ) ∈ ([1, -1] : List ℤ) ∧
    isValid baseEngine.grid baseEngine.activePiece baseEngine.activePieceX
      baseEngine.activePieceY ((baseEngine.activePieceRot + 1 + 4).tmod 4) = true ∧
    ((rotatePiece baseEngine 1).1 = true ∧
     (rotatePiece baseEngine 1).2.activePieceX = baseEngine.activePieceX ∧
     (rotatePiece baseEngine 1).2.activePieceY = baseEngine.activePieceY ∧
     (rotatePiece baseEngine 1).2.activePieceRot =
       (baseEngine.activePieceRot + 1 + 4).tmod 4) :=
  ⟨rfl, by decide, by decide, by decide,
   c9_first_kick_is_identity.2 baseEngine .O 1 rfl (by decide) (by decide)
     (by decide)⟩

/-! ## C2: back-to-back Tetris scoring -/

/-- **C2, counterexample.** On a fresh scoring instance the first
`processLineClear(4, false, false)` does return 800, but the immediately
following second one returns 1250, not 1200: the combo counter (started by
the first clear) adds a `50 * combo * level` bonus on top of the
back-to-back 1200. -/
theorem c2_counterexample_second_tetris :
    (processLineClear createScoring 4 false false).1 = 800 ∧
    (processLineClear (processLineClear createScoring 4 false false).2
      4 false false).1 = 1250 ∧
    ¬((processLineClear (processLineClear createScoring 4 false false).2
      4 false false).1 = 1200) := by decide

/-- **C2, amended.** On a fresh scoring instance at level 1,
`processLineClear(4, false, false)` returns 800; the immediately following
second call returns `⌊800 × 1.5⌋ + 50 × 1 × 1 = 1250` (the floored
back-to-back points plus the combo bonus for the second consecutive
clear). -/
theorem c2_amended_second_tetris :
    (processLineClear createScoring 4 false false).1 = 800 ∧
    (processLineClear (processLineClear createScoring 4 false false).2
      4 false false).1 = 800 * 3 / 2 + COMBO_BONUS * 1 * 1 := by decide

/-! ## C4: lock delay -/

/-- One `update` tick with no actions on a grounded piece: the lock-delay
timer accumulates `deltaTime`, and the piece locks exactly when the
accumulated value reaches `LOCK_DELAY_MS`. -/
theorem update_grounded_tick (s : EngineState) (t : Tet) (dt : ℚ)
    (h1 : s.gameOver = false) (h2 : s.paused = false)
    (h3 : s.activePiece = some t) (h4 : s.isOnGround = true)
    (h5 : s.softDropActive = false)
    (h6 : isValid s.grid s.activePiece s.activePieceX (s.activePieceY - 1)
      s.activePieceRot = false) :
    update s dt [] =
      (if LOCK_DELAY_MS ≤ s.lockTimer + dt then
        lockPiece { s with lockTimer := s.lockTimer + dt }
      else { s with lockTimer := s.lockTimer + dt }) := by
  cases s with
  | mk grid pieces pieceIdx activePiece activePieceX activePieceY
      activePieceRot holdPiece holdLocked gravityTimer gravityInterval
      softDropActive softDropRows lockTimer lockResets isOnGround gameOver
      paused linesCleared lastActionWasRotation lastRotationUsedKick
      lastLockResult lastDropInfo lastHardDropEvent =>
    simp only at h1 h2 h3 h4 h5 h6
    subst h1 h2 h3 h4 h5
    simp only [update, h6]
    by_cases hle : LOCK_DELAY_MS ≤ lockTimer + dt <;> simp [hle, h6]

/-- `lockPiece` always publishes a lock result when a piece is active. -/
theorem spawnPiece_lastLockResult (s : EngineState) :
    (spawnPiece s).2.lastLockResult = s.lastLockResult := by
  simp only [spawnPiece]
  split <;> rfl

theorem lockPiece_isSome (s : EngineState) (t : Tet)
    (h : s.activePiece = some t) :
    (lockPiece s).lastLockResult.isSome = true := by
  simp only [lockPiece, h]
  split <;> split <;> split <;> simp [spawnPiece_lastLockResult]

/-- A successful `movePiece` while grounded and below the reset cap
restarts the lock-delay timer and increments the reset count. -/
theorem movePiece_success_reset (s : EngineState) (t : Tet) (dx dy : ℤ)
    (hp : s.activePiece = some t)
    (hv : isValid s.grid s.activePiece (s.activePieceX + dx)
      (s.activePieceY + dy) s.activePieceRot = true)
    (hg : s.isOnGround = true) (hr : s.lockResets < MAX_LOCK_RESETS) :
    movePiece s dx dy = (true, { s with
      activePieceX := s.activePieceX + dx
      activePieceY := s.activePieceY + dy
      lockTimer := 0
      lockResets := s.lockResets + 1
      lastActionWasRotation := false }) := by
  rw [hp] at hv
  simp only [movePiece, hp, hv, if_true, hg, hr, and_true, if_pos trivial]

/-- A successful `movePiece` while grounded at the reset cap changes the
position but leaves the lock-delay timer and reset count untouched. -/
theorem movePiece_success_capped (s : EngineState) (t : Tet) (dx dy : ℤ)
    (hp : s.activePiece = some t)
    (hv : isValid s.grid s.activePiece (s.activePieceX + dx)
      (s.activePieceY + dy) s.activePieceRot = true)
    (hr : MAX_LOCK_RESETS ≤ s.lockResets) :
    movePiece s dx dy = (true, { s with
      activePieceX := s.activePieceX + dx
      activePieceY := s.activePieceY + dy
      lastActionWasRotation := false }) := by
  rw [hp] at hv
  have hr' : ¬(s.lockResets < MAX_LOCK_RESETS) := by omega
  simp only [movePiece, hp, hv, if_true, hr', and_false, if_false]

/-- The lock-delay reset rule of the kick loop mirrors the move rule. -/
theorem rotateTry_resets (s : EngineState) (nr : ℤ) :
    ∀ (ks : List (ℤ × ℤ)) (i : ℕ), (rotateTry s nr ks i).1 = true →
      ((s.isOnGround = true → s.lockResets < MAX_LOCK_RESETS →
        (rotateTry s nr ks i).2.lockTimer = 0 ∧
        (rotateTry s nr ks i).2.lockResets = s.lockResets + 1) ∧
       (MAX_LOCK_RESETS ≤ s.lockResets →
        (rotateTry s nr ks i).2.lockTimer = s.lockTimer ∧
        (rotateTry s nr ks i).2.lockResets = s.lockResets)) := by
  intro ks
  induction ks with
  | nil => intro i h; exact absurd h (by simp [rotateTry])
  | cons k ks ih =>
    intro i h
    rw [rotateTry] at h ⊢
    by_cases hv : isValid s.grid s.activePiece (s.activePieceX + k.1)
        (s.activePieceY + -k.2) nr = true
    · rw [if_pos hv] at h ⊢
      constructor
      · intro hg hr
        simp [hg, hr]
      · intro hr
        have hr' : ¬(s.lockResets < MAX_LOCK_RESETS) := by omega
        simp [hr']
    · rw [if_neg hv] at h ⊢
      exact ih (i + 1) h

/-- The reset rule lifted to `rotatePiece`. -/
theorem rotatePiece_resets (s : EngineState) (d : ℤ)
    (h : (rotatePiece s d).1 = true) :
    ((s.isOnGround = true → s.lockResets < MAX_LOCK_RESETS →
      (rotatePiece s d).2.lockTimer = 0 ∧
      (rotatePiece s d).2.lockResets = s.lockResets + 1) ∧
     (MAX_LOCK_RESETS ≤ s.lockResets →
      (rotatePiece s d).2.lockTimer = s.lockTimer ∧
      (rotatePiece s d).2.lockResets = s.lockResets)) := by
  rcases hp : s.activePiece with _ | t
  · rw [rotatePiece, hp] at h
    exact absurd h (by simp)
  · simp only [rotatePiece, hp] at h ⊢
    generalize WALL_KICKSo t s.activePieceRot
      ((s.activePieceRot + d + 4).tmod 4) = K at h ⊢
    cases K with
    | none => exact absurd h (by simp)
    | some ks => exact rotateTry_resets s _ ks 0 h

/-- Ticking a grounded, untouched piece accumulates exactly the supplied
elapsed times while the total stays under the lock delay. -/
theorem update_grounded_accumulate (s : EngineState) (t : Tet)
    (h1 : s.gameOver = false) (h2 : s.paused = false)
    (h3 : s.activePiece = some t) (h4 : s.isOnGround = true)
    (h5 : s.softDropActive = false)
    (h6 : isValid s.grid s.activePiece s.activePieceX (s.activePieceY - 1)
      s.activePieceRot = false) :
    ∀ dts : List ℚ, (∀ d ∈ dts, 0 ≤ d) →
      s.lockTimer + dts.sum < LOCK_DELAY_MS →
      dts.foldl (fun st d => update st d []) s =
        { s with lockTimer := s.lockTimer + dts.sum } := by
  intro dts
  induction dts generalizing s with
  | nil =>
    intro _ _
    show s = { s with lockTimer := s.lockTimer + List.sum [] }
    rw [show s.lockTimer + List.sum [] = s.lockTimer by simp]
  | cons d rest ih =>
    intro hnn hlt
    have hd0 : 0 ≤ d := hnn d (List.mem_cons_self d rest)
    have hrest0 : 0 ≤ rest.sum :=
      List.sum_nonneg fun x hx => hnn x (List.mem_cons_of_mem d hx)
    have hsum : (d :: rest).sum = d + rest.sum := List.sum_cons
    have hstep : s.lockTimer + d < LOCK_DELAY_MS := by
      rw [hsum] at hlt
      linarith
    rw [List.foldl_cons,
      update_grounded_tick s t d h1 h2 h3 h4 h5 h6, if_neg (by linarith)]
    rw [ih { s with lockTimer := s.lockTimer + d } h1 h2 h3 h4 h5 h6
      (fun x hx => hnn x (List.mem_cons_of_mem d hx))
      (by simp only; rw [hsum] at hlt; linarith)]
    rw [hsum]
    congr 1
    ring

/-- **C4.** While the active piece is grounded: a no-action `update`
accumulates `deltaTime` into the lock-delay timer and locks the piece on
the tick where the accumulated time reaches 500 ms (and not before); a
successful move or rotation while grounded restarts the timer and
increments the reset count only while the count is below 15; at or beyond
15 resets a further successful move or rotation leaves the timer (and so
the pending lock) untouched. -/
theorem c4_lock_delay (s : EngineState) (t : Tet)
    (h1 : s.gameOver = false) (h2 : s.paused = false)
    (h3 : s.activePiece = some t) (h4 : s.isOnGround = true)
    (h5 : s.softDropActive = false) (h7 : s.lastLockResult = none)
    (h6 : isValid s.grid s.activePiece s.activePieceX (s.activePieceY - 1)
      s.activePieceRot = false) :
    (∀ dt : ℚ, s.lockTimer + dt < LOCK_DELAY_MS →
      update s dt [] = { s with lockTimer := s.lockTimer + dt }) ∧
    (∀ dt : ℚ, LOCK_DELAY_MS ≤ s.lockTimer + dt →
      (update s dt []).lastLockResult.isSome = true) ∧
    (∀ dx dy : ℤ, isValid s.grid s.activePiece (s.activePieceX + dx)
        (s.activePieceY + dy) s.activePieceRot = true →
      s.lockResets < MAX_LOCK_RESETS →
      movePiece s dx dy = (true, { s with
        activePieceX := s.activePieceX + dx
        activePieceY := s.activePieceY + dy
        lockTimer := 0
        lockResets := s.lockResets + 1
        lastActionWasRotation := false })) ∧
    (∀ dx dy : ℤ, isValid s.grid s.activePiece (s.activePieceX + dx)
        (s.activePieceY + dy) s.activePieceRot = true →
      MAX_LOCK_RESETS ≤ s.lockResets →
      movePiece s dx dy = (true, { s with
        activePieceX := s.activePieceX + dx
        activePieceY := s.activePieceY + dy
        lastActionWasRotation := false })) ∧
    (∀ d : ℤ, (rotatePiece s d).1 = true → s.lockResets < MAX_LOCK_RESETS →
      (rotatePiece s d).2.lockTimer = 0 ∧
      (rotatePiece s d).2.lockResets = s.lockResets + 1) ∧
    (∀ d : ℤ, (rotatePiece s d).1 = true → MAX_LOCK_RESETS ≤ s.lockResets →
      (rotatePiece s d).2.lockTimer = s.lockTimer ∧
      (rotatePiece s d).2.lockResets = s.lockResets) ∧
    (∀ dts : List ℚ, (∀ d ∈ dts, 0 ≤ d) →
      s.lockTimer + dts.sum < LOCK_DELAY_MS →
      dts.foldl (fun st d => update st d []) s =
        { s with lockTimer := s.lockTimer + dts.sum }) ∧
    (∀ (dts : List ℚ) (dt : ℚ), (∀ d ∈ dts, 0 ≤ d) →
      s.lockTimer + dts.sum < LOCK_DELAY_MS →
      LOCK_DELAY_MS ≤ s.lockTimer + dts.sum + dt →
      (dts.foldl (fun st d => update st d []) s).lastLockResult = none ∧
      (update (dts.foldl (fun st d => update st d []) s) dt
        []).lastLockResult.isSome = true) := by
  refine ⟨?_, ?_, ?_, ?_, ?_, ?_, ?_, ?_⟩
  · intro dt hlt
    rw [update_grounded_tick s t dt h1 h2 h3 h4 h5 h6, if_neg (by linarith)]
  · intro dt hle
    rw [update_grounded_tick s t dt h1 h2 h3 h4 h5 h6, if_pos hle]
    exact lockPiece_isSome _ t h3
  · intro dx dy hv hr
    exact movePiece_success_reset s t dx dy h3 hv h4 hr
  · intro dx dy hv hr
    exact movePiece_success_capped s t dx dy h3 hv hr
  · intro d hsucc hr
    exact (rotatePiece_resets s d hsucc).1 h4 hr
  · intro d hsucc hr
    exact (rotatePiece_resets s d hsucc).2 hr
  · exact update_grounded_accumulate s t h1 h2 h3 h4 h5 h6
  · intro dts dt hnn hlt hle
    rw [update_grounded_accumulate s t h1 h2 h3 h4 h5 h6 dts hnn hlt]
    refine ⟨h7, ?_⟩
    rw [update_grounded_tick { s with lockTimer := s.lockTimer + dts.sum } t dt
      h1 h2 h3 h4 h5 h6, if_pos hle]
    exact lockPiece_isSome _ t h3

/-- Witness for C4 at the grounded O piece of `baseEngine`. -/
theorem c4_lock_delay_witness :
    baseEngine.gameOver = false ∧ baseEngine.paused = false ∧
    baseEngine.activePiece = some .O ∧ baseEngine.isOnGround = true ∧
    baseEngine.softDropActive = false ∧ baseEngine.lastLockResult = none ∧
    isValid baseEngine.grid baseEngine.activePiece baseEngine.activePieceX
      (baseEngine.activePieceY - 1) baseEngine.activePieceRot = false ∧
    ((∀ dt : ℚ, baseEngine.lockTimer + dt < LOCK_DELAY_MS →
      update baseEngine dt [] =
        { baseEngine with lockTimer := baseEngine.lockTimer + dt }) ∧
    (∀ dt : ℚ, LOCK_DELAY_MS ≤ baseEngine.lockTimer + dt →
      (update baseEngine dt []).lastLockResult.isSome = true) ∧
    (∀ dx dy : ℤ, isValid baseEngine.grid baseEngine.activePiece
        (baseEngine.activePieceX + dx) (baseEngine.activePieceY + dy)
        baseEngine.activePieceRot = true →
      baseEngine.lockResets < MAX_LOCK_RESETS →
      movePiece baseEngine dx dy = (true, { baseEngine with
        activePieceX := baseEngine.activePieceX + dx
        activePieceY := baseEngine.activePieceY + dy
        lockTimer := 0
        lockResets := baseEngine.lockResets + 1
        lastActionWasRotation := false })) ∧
    (∀ dx dy : ℤ, isValid baseEngine.grid baseEngine.activePiece
        (baseEngine.activePieceX + dx) (baseEngine.activePieceY + dy)
        baseEngine.activePieceRot = true →
      MAX_LOCK_RESETS ≤ baseEngine.lockResets →
      movePiece baseEngine dx dy = (true, { baseEngine with
        activePieceX := baseEngine.activePieceX + dx
        activePieceY := baseEngine.activePieceY + dy
        lastActionWasRotation := false })) ∧
    (∀ d : ℤ, (rotatePiece baseEngine d).1 = true →
      baseEngine.lockResets < MAX_LOCK_RESETS →
      (rotatePiece baseEngine d).2.lockTimer = 0 ∧
      (rotatePiece baseEngine d).2.lockResets = baseEngine.lockResets + 1) ∧
    (∀ d : ℤ, (rotatePiece baseEngine d).1 = true →
      MAX_LOCK_RESETS ≤ baseEngine.lockResets →
      (rotatePiece baseEngine d).2.lockTimer = baseEngine.lockTimer ∧
      (rotatePiece baseEngine d).2.lockResets = baseEngine.lockResets) ∧
    (∀ dts : List ℚ, (∀ d ∈ dts, 0 ≤ d) →
      baseEngine.lockTimer + dts.sum < LOCK_DELAY_MS →
      dts.foldl (fun st d => update st d []) baseEngine =
        { baseEngine with lockTimer := baseEngine.lockTimer + dts.sum }) ∧
    (∀ (dts : List ℚ) (dt : ℚ), (∀ d ∈ dts, 0 ≤ d) →
      baseEngine.lockTimer + dts.sum < LOCK_DELAY_MS →
      LOCK_DELAY_MS ≤ baseEngine.lockTimer + dts.sum + dt →
      (dts.foldl (fun st d => update st d []) baseEngine).lastLockResult =
        none ∧
      (update (dts.foldl (fun st d => update st d []) baseEngine) dt
        []).lastLockResult.isSome = true)) :=
  ⟨rfl, rfl, rfl, rfl, rfl, rfl, by decide,
   c4_lock_delay baseEngine .O rfl rfl rfl rfl rfl rfl (by decide)⟩

/-! ## C1: the 7-bag randomizer -/

/-- Pulling the element at index `m` to the front while writing `x` into
its slot is a permutation of pushing `x` onto the front. -/
theorem getD_cons_set_perm (t : List Tet) (m : ℕ) (x : Tet)
    (hm : m < t.length) :
    List.Perm (t.getD m .I :: t.set m x) (x :: t) := by
  rw [List.getD_eq_getElem _ _ hm, List.set_eq_take_cons_drop _ hm]
  have hT : t = t.take m ++ t[m] :: t.drop (m + 1) := by
    conv_lhs => rw [← List.take_append_drop m t]
    rw [List.drop_eq_getElem_cons hm]
  have h1 : List.Perm (t[m] :: (t.take m ++ x :: t.drop (m + 1)))
      (t[m] :: (x :: (t.take m ++ t.drop (m + 1)))) :=
    List.Perm.cons _ List.perm_middle
  have h2 : List.Perm (t[m] :: (x :: (t.take m ++ t.drop (m + 1))))
      (x :: (t[m] :: (t.take m ++ t.drop (m + 1)))) := List.Perm.swap _ _ _
  have h3 : List.Perm (x :: (t[m] :: (t.take m ++ t.drop (m + 1))))
      (x :: (t.take m ++ t[m] :: t.drop (m + 1))) :=
    List.Perm.cons _ List.perm_middle.symm
  exact ((h1.trans h2).trans h3).trans (by rw [← hT])

/-- A Fisher-Yates swap with in-range indices permutes the list. -/
theorem listSwap_perm :
    ∀ (a : List Tet) (i j : ℕ), i < a.length → j < a.length →
      List.Perm (listSwap a i j) a := by
  intro a
  induction a with
  | nil => intro i j hi _; exact absurd hi (by simp)
  | cons x t ih =>
    intro i j hi hj
    match i, j with
    | 0, 0 =>
      simp [listSwap]
    | 0, m + 1 =>
      have hm : m < t.length := by simpa using hj
      show List.Perm (((x :: t).set 0 ((x :: t).getD (m + 1) .I)).set (m + 1)
        ((x :: t).getD 0 .I)) (x :: t)
      rw [show (x :: t).getD (m + 1) .I = t.getD m .I from List.getD_cons_succ,
        show (x :: t).getD 0 .I = x from List.getD_cons_zero]
      show List.Perm (t.getD m .I :: t.set m x) (x :: t)
      exact getD_cons_set_perm t m x hm
    | n + 1, 0 =>
      have hn : n < t.length := by simpa using hi
      show List.Perm (((x :: t).set (n + 1) ((x :: t).getD 0 .I)).set 0
        ((x :: t).getD (n + 1) .I)) (x :: t)
      rw [show (x :: t).getD (n + 1) .I = t.getD n .I from List.getD_cons_succ,
        show (x :: t).getD 0 .I = x from List.getD_cons_zero]
      show List.Perm (t.getD n .I :: t.set n x) (x :: t)
      exact getD_cons_set_perm t n x hn
    | n + 1, m + 1 =>
      have hn : n < t.length := by simpa using hi
      have hm : m < t.length := by simpa using hj
      show List.Perm (((x :: t).set (n + 1) ((x :: t).getD (m + 1) .I)).set
        (m + 1) ((x :: t).getD (n + 1) .I)) (x :: t)
      rw [show (x :: t).getD (m + 1) .I = t.getD m .I from List.getD_cons_succ,
        show (x :: t).getD (n + 1) .I = t.getD n .I from List.getD_cons_succ]
      show List.Perm (x :: (t.set n (t.getD m .I)).set m (t.getD n .I)) (x :: t)
      exact List.Perm.cons x (ih n m hn hm)

/-- The Fisher-Yates loop permutes its input. -/
theorem fyAux_perm (rng : ℕ → ℕ) :
    ∀ (i c : ℕ) (a : List Tet), i < a.length →
      List.Perm (fyAux rng c i a) a := by
  intro i
  induction i with
  | zero => intro c a _; exact List.Perm.refl a
  | succ i ih =>
    intro c a hi
    rw [fyAux]
    have hj : rng c % (i + 2) < a.length :=
      lt_of_lt_of_le (Nat.mod_lt _ (by omega)) (by omega)
    have hswap := listSwap_perm a (i + 1) (rng c % (i + 2)) hi hj
    have hlen : (listSwap a (i + 1) (rng c % (i + 2))).length = a.length :=
      listSwap_length a _ _
    exact (ih (c + 1) _ (by omega)).trans hswap

/-- Every freshly shuffled bag is a permutation of the 7 piece types. -/
theorem createShuffledBag_perm (rng : ℕ → ℕ) (c : ℕ) :
    List.Perm (createShuffledBag rng c) PIECE_TYPES :=
  fyAux_perm rng 6 c PIECE_TYPES (by decide)

/-- The refill loop only appends whole shuffled bags, and when given enough
fuel (14 ≤ length + 7·fuel) it stops with at least 14 queued pieces. -/
theorem fillQueueAux_spec (rng : ℕ → ℕ) :
    ∀ (fuel : ℕ) (s : BagState), 14 ≤ s.queue.length + 7 * fuel →
      ∃ bs : List (List Tet), (∀ b ∈ bs, List.Perm b PIECE_TYPES) ∧
        (fillQueueAux rng fuel s).queue = s.queue ++ bs.flatten ∧
        14 ≤ (fillQueueAux rng fuel s).queue.length := by
  intro fuel
  induction fuel with
  | zero =>
    intro s hs
    exact ⟨[], by simp, by simp [fillQueueAux], by
      simp only [fillQueueAux]; omega⟩
  | succ fuel ih =>
    intro s hs
    rw [fillQueueAux]
    by_cases h : s.queue.length < 14
    · rw [if_pos h]
      have hlen : (s.queue ++ createShuffledBag rng s.ctr).length =
          s.queue.length + 7 := by
        rw [List.length_append, createShuffledBag_length]
      obtain ⟨bs, hperm, heq, hge⟩ :=
        ih ⟨s.queue ++ createShuffledBag rng s.ctr, s.ctr + 6⟩
          (by simp only [hlen]; omega)
      refine ⟨createShuffledBag rng s.ctr :: bs, ?_, ?_, hge⟩
      · intro b hb
        rcases List.mem_cons.mp hb with rfl | hb'
        · exact createShuffledBag_perm rng s.ctr
        · exact hperm b hb'
      · rw [heq]
        show (s.queue ++ createShuffledBag rng s.ctr) ++ bs.flatten =
          s.queue ++ (createShuffledBag rng s.ctr :: bs).flatten
        rw [List.flatten_cons, List.append_assoc]
    · rw [if_neg h]
      exact ⟨[], by simp, by simp, by omega⟩

/-- `fillQueue` only appends whole shuffled bags, and stops with at least
14 queued pieces. -/
theorem fillQueue_spec (rng : ℕ → ℕ) (s : BagState) :
    ∃ bs : List (List Tet), (∀ b ∈ bs, List.Perm b PIECE_TYPES) ∧
      (fillQueue rng s).queue = s.queue ++ bs.flatten ∧
      14 ≤ (fillQueue rng s).queue.length :=
  fillQueueAux_spec rng 2 s (by omega)

/-- One `next()` on a nonempty queue: dequeue the head, then append whole
shuffled bags until at least 14 pieces are queued. -/
theorem bagNext_cons (rng : ℕ → ℕ) (s : BagState) (p : Tet) (rest : List Tet)
    (hq : s.queue = p :: rest) :
    (bagNext rng s).1 = p ∧
    ∃ bs : List (List Tet), (∀ b ∈ bs, List.Perm b PIECE_TYPES) ∧
      (bagNext rng s).2.queue = rest ++ bs.flatten ∧
      14 ≤ (bagNext rng s).2.queue.length := by
  obtain ⟨bs, hperm, heq, hge⟩ := fillQueue_spec rng ⟨rest, s.ctr⟩
  constructor
  · simp [bagNext, hq]
  · exact ⟨bs, hperm, by simp [bagNext, hq]; exact heq,
      by simp [bagNext, hq]; exact hge⟩

/-- Drawing exactly the queued prefix returns it verbatim; the final queue
is the given remainder plus whole shuffled bags. -/
theorem drawN_queue_front (rng : ℕ → ℕ) :
    ∀ (pre rest : List Tet) (s : BagState), s.queue = pre ++ rest →
      (drawN rng s pre.length).1 = pre ∧
      ∃ bs : List (List Tet), (∀ b ∈ bs, List.Perm b PIECE_TYPES) ∧
        (drawN rng s pre.length).2.queue = rest ++ bs.flatten ∧
        (pre ≠ [] → 14 ≤ (drawN rng s pre.length).2.queue.length) := by
  intro pre
  induction pre with
  | nil =>
    intro rest s hq
    exact ⟨rfl, [], by simp, by simpa using hq, by simp⟩
  | cons p pre' ih =>
    intro rest s hq
    have hq' : s.queue = p :: (pre' ++ rest) := by simpa using hq
    obtain ⟨hfst, e1, he1perm, he1eq, he1ge⟩ := bagNext_cons rng s p _ hq'
    have hq1 : (bagNext rng s).2.queue = pre' ++ (rest ++ e1.flatten) := by
      rw [he1eq, List.append_assoc]
    obtain ⟨hpre', bs, hbsperm, hbseq, hbsge⟩ := ih (rest ++ e1.flatten)
      (bagNext rng s).2 hq1
    refine ⟨?_, e1 ++ bs, ?_, ?_, ?_⟩
    · show (bagNext rng s).1 ::
        (drawN rng (bagNext rng s).2 pre'.length).1 = p :: pre'
      rw [hfst, hpre']
    · intro b hb
      rcases List.mem_append.mp hb with hb' | hb'
      · exact he1perm b hb'
      · exact hbsperm b hb'
    · show (drawN rng (bagNext rng s).2 pre'.length).2.queue =
        rest ++ (e1 ++ bs).flatten
      rw [hbseq, List.flatten_append, List.append_assoc]
    · intro _
      show 14 ≤ (drawN rng (bagNext rng s).2 pre'.length).2.queue.length
      by_cases hpe : pre' = []
      · subst hpe; exact he1ge
      · exact hbsge hpe

/-- Output length of `drawN`. -/
theorem drawN_length (rng : ℕ → ℕ) :
    ∀ (n : ℕ) (s : BagState), (drawN rng s n).1.length = n := by
  intro n
  induction n with
  | zero => intro s; rfl
  | succ n ih => intro s; simp [drawN, ih]

/-- Splitting a run of draws. -/
theorem drawN_add (rng : ℕ → ℕ) :
    ∀ (m n : ℕ) (s : BagState),
      drawN rng s (m + n) =
        ((drawN rng s m).1 ++ (drawN rng (drawN rng s m).2 n).1,
         (drawN rng (drawN rng s m).2 n).2) := by
  intro m
  induction m with
  | zero => intro n s; simp [drawN]
  | succ m ih =>
    intro n s
    rw [show m + 1 + n = (m + n) + 1 from by omega]
    simp only [drawN]
    rw [ih n (bagNext rng s).2]
    rfl

/-- After any multiple of 7 draws from a fresh bag, the queue is a
concatenation of whole shuffled bags and holds at least 14 pieces. -/
theorem drawN_aligned (rng : ℕ → ℕ) :
    ∀ k : ℕ, ∃ bs : List (List Tet),
      (∀ b ∈ bs, List.Perm b PIECE_TYPES) ∧
      (drawN rng (createBag rng) (7 * k)).2.queue = bs.flatten ∧
      14 ≤ (drawN rng (createBag rng) (7 * k)).2.queue.length := by
  intro k
  induction k with
  | zero =>
    obtain ⟨bs, hperm, heq, hge⟩ := fillQueue_spec rng ⟨[], 0⟩
    refine ⟨bs, hperm, ?_, ?_⟩
    · show (createBag rng).queue = bs.flatten
      rw [createBag, heq]
      rfl
    · show 14 ≤ (createBag rng).queue.length
      rw [createBag]
      exact hge
  | succ k ih =>
    obtain ⟨bs, hperm, heq, hge⟩ := ih
    have hbs_ne : bs ≠ [] := by
      rintro rfl
      rw [show ([] : List (List Tet)).flatten = [] from rfl] at heq
      rw [heq] at hge
      simp at hge
    obtain ⟨b0, bs', rfl⟩ := List.exists_cons_of_ne_nil hbs_ne
    have hb0 : List.Perm b0 PIECE_TYPES := hperm b0 (List.mem_cons_self _ _)
    have hb0len : b0.length = 7 := by
      rw [hb0.length_eq]; rfl
    have hqueue : (drawN rng (createBag rng) (7 * k)).2.queue =
        b0 ++ bs'.flatten := by rw [heq, List.flatten_cons]
    obtain ⟨hfst, e, heperm, heeq, hege⟩ :=
      drawN_queue_front rng b0 bs'.flatten (drawN rng (createBag rng) (7 * k)).2 hqueue
    have hstep2 : (drawN rng (createBag rng) (7 * (k + 1))).2 =
        (drawN rng (drawN rng (createBag rng) (7 * k)).2 7).2 := by
      rw [show 7 * (k + 1) = 7 * k + 7 from by ring,
        drawN_add rng (7 * k) 7 (createBag rng)]
    rw [hb0len] at heeq hege
    have hb0ne : b0 ≠ [] := by
      intro hb0nil
      rw [hb0nil] at hb0len
      simp at hb0len
    refine ⟨bs' ++ e, ?_, ?_, ?_⟩
    · intro b hb
      rcases List.mem_append.mp hb with hb' | hb'
      · exact hperm b (List.mem_cons_of_mem b0 hb')
      · exact heperm b hb'
    · rw [hstep2, heeq, List.flatten_append]
    · rw [hstep2]
      exact hege hb0ne

/-- The adversarial shuffle source for the counterexample: the first bag
comes out in catalog order `[I,O,T,S,Z,J,L]` and the second bag starts
with `L`. -/
def rngCE : ℕ → ℕ := fun n => [6, 5, 4, 3, 2, 1, 0, 5, 4, 3, 2, 1].getD n 0

/-- **C1, counterexample.**  The state reached after one `next()` call from
a fresh bag is reachable, yet under the shuffle outcome `rngCE` the next 7
consecutive `next()` calls return `[O, T, S, Z, J, L, L]` — the type L
twice and no I — because the window straddles a bag boundary.  The claim
as stated (every reachable state, every outcome, any 7 consecutive calls)
is therefore false. -/
theorem c1_counterexample_straddling_window :
    (drawN rngCE ((drawN rngCE (createBag rngCE) 1).2) 7).1 =
      [.O, .T, .S, .Z, .J, .L, .L] ∧
    ¬ List.Perm (drawN rngCE ((drawN rngCE (createBag rngCE) 1).2) 7).1
        PIECE_TYPES := by
  constructor
  · decide
  · decide

/-- **C1, amended.**  For every outcome of the shuffle source, the draws
from a fresh `createBag()` form consecutive aligned groups of 7, and every
aligned group — calls `7k+1` through `7k+7` — returns each of the 7 types
exactly once.  (Windows that straddle a bag boundary need not, as the
counterexample shows.) -/
theorem c1_amended_aligned_windows (rng : ℕ → ℕ) (k : ℕ) :
    List.Perm
      ((drawN rng (createBag rng) (7 * k + 7)).1.drop (7 * k))
      PIECE_TYPES := by
  obtain ⟨bs, hperm, heq, hge⟩ := drawN_aligned rng k
  have hbs_ne : bs ≠ [] := by
    rintro rfl
    rw [show ([] : List (List Tet)).flatten = [] from rfl] at heq
    rw [heq] at hge
    simp at hge
  obtain ⟨b0, bs', rfl⟩ := List.exists_cons_of_ne_nil hbs_ne
  have hb0 : List.Perm b0 PIECE_TYPES := hperm b0 (List.mem_cons_self _ _)
  have hb0len : b0.length = 7 := by rw [hb0.length_eq]; rfl
  have hqueue : (drawN rng (createBag rng) (7 * k)).2.queue =
      b0 ++ bs'.flatten := by rw [heq, List.flatten_cons]
  obtain ⟨hfst, _, _, _, _⟩ :=
    drawN_queue_front rng b0 bs'.flatten (drawN rng (createBag rng) (7 * k)).2 hqueue
  set S := (drawN rng (createBag rng) (7 * k)).2 with hS
  set L1 := (drawN rng (createBag rng) (7 * k)).1 with hL1
  have hsplit1 : (drawN rng (createBag rng) (7 * k + 7)).1 =
      L1 ++ (drawN rng S 7).1 := by
    rw [drawN_add rng (7 * k) 7 (createBag rng)]
  have hlen : L1.length = 7 * k := drawN_length rng (7 * k) (createBag rng)
  rw [hsplit1, ← hlen, List.drop_left, ← hb0len, hfst]
  exact hb0

end Tetris
